import Mathlib

/-!
A shallow embedding of the dimension-mapping core of DSgrid
(`src/dsgrid/dataformat/dimmap.py`): the `DimensionMap` variants, the
`Mappings` registry and its resolution algorithm, and the
`UnitConversionMap` factor solver.  The enumeration classes and the
scaling-datafile abstraction live outside this core; where their behavior
matters they are modelled from the spec and marked as such.

Python floats are modelled exactly (scale factors as `ℚ` or as the
fraction type `PyF`); on every value appearing in these developments
(powers of `1000`, their inverses and products) IEEE double arithmetic
is exact, so the rational model agrees with the code.
-/

/-- An enumeration id: an opaque hashable value, either a plain string or a
(code, fuel) pair for multi-fuel end-use enumerations. -/
inductive EId
  | str (s : String)
  | pair (a b : String)
deriving DecidableEq, Repr

/-- Rendering of an id used when building error message strings
(`"{}".format(id)` in the source). -/
def eidStr : EId → String
  | .str s => s
  | .pair a b => "(" ++ a ++ ", " ++ b ++ ")"

/-- The dynamically-typed return value of a `map` call: Python `None`, a
single id, or (for `ExplicitDisaggregation`) a list of ids. -/
inductive MapRet
  | none
  | id (i : EId)
  | list (l : List EId)
deriving DecidableEq, Repr

/-- Errors raised by the source.  `dsgrid` is `DSGridError` (the spec's
`ConfigurationError`); `notImplemented` is `DSGridNotImplemented` (the
spec's `UnsupportedConversionError`); `indexError`, `assertionError` and
`keyError` model the corresponding uncontrolled Python exceptions.
`fuelOut` is a sentinel of the fuel-based embedding of the solver's
`while` loop, proved unreachable below. -/
inductive Err
  | dsgrid (msg : String)
  | notImplemented (msg : String)
  | indexError
  | assertionError
  | keyError
  | fuelOut
deriving DecidableEq, Repr

/-- Ordered association-list lookup (Python `dict` lookup / `in`). -/
def alook {α β : Type} [DecidableEq α] : List (α × β) → α → Option β
  | [], _ => Option.none
  | (k, v) :: t, a => if k = a then some v else alook t a

/-- Ordered association-list assignment (Python `dict` assignment): an
existing key keeps its position and gets the new value, a new key is
appended. -/
def ains {α β : Type} [DecidableEq α] (l : List (α × β)) (k : α) (v : β) :
    List (α × β) :=
  if (alook l k).isSome then
    l.map (fun p => if p.1 = k then (k, v) else p)
  else
    l ++ [(k, v)]

/-- Axis kind of an enumeration (the source dispatches on the runtime
class: `SectorEnumeration`, `GeographyEnumeration`,
`EndUseEnumerationBase`, `TimeEnumeration`). -/
inductive EnumKind
  | sector
  | geography
  | enduse
  | time
deriving DecidableEq, Repr

/-- Modelled from the spec: the enumeration catalog is an external
collaborator exposing `name` (string identity), `ids` (ordered, unique),
parallel display `names`, and its axis kind. -/
structure Enumeration where
  name : String
  ids : List EId
  names : List String
  kind : EnumKind
deriving DecidableEq, Repr

/-- Modelled from the spec: two enumerations are "the same" dimension
scheme iff names and members match. -/
def enumEq (a b : Enumeration) : Bool :=
  a.name == b.name && a.ids == b.ids && a.names == b.names

/-- Modelled from the spec: `is_subset(other)` — every id of `a` is a
member of `b`. -/
def isSubset (a b : Enumeration) : Bool :=
  a.ids.all (fun i => b.ids.contains i)

/-! ## FullAggregationMap -/

structure FullAggregationMap where
  from_enum : Enumeration
  to_enum : Enumeration
  to_id : EId
  exclude_list : List EId
deriving DecidableEq, Repr

/-- Cardinality error message of `FullAggregationMap.__init__` (the source
interpolates `repr(to_enum)`; the model uses the enumeration name). -/
def fullAggCardMsg (te : Enumeration) : String :=
  "FullAggregationMaps are aggregates that may exclude some items, but " ++
  "otherwise aggretate up to one quantity. to_enum " ++ te.name ++
  " contains too many items."

/-- Exclude-list error message of `FullAggregationMap.__init__`. -/
def fullAggExcludeMsg (x : EId) (fe : Enumeration) : String :=
  "exclude_list must contain ids in from_enum that are to be exluded " ++
  "from the overall aggregation. Found " ++ eidStr x ++
  " in exclude list, which is not in " ++ fe.name ++ "."

/-- `FullAggregationMap.__init__`: rejects a `to_enum` with more than one
id, takes `to_enum.ids[0]` (an `IndexError` when empty), then rejects the
first `exclude_list` entry missing from `from_enum.ids`. -/
def FullAggregationMap.init (fe te : Enumeration) (exclude_list : List EId) :
    Except Err FullAggregationMap :=
  if 1 < te.ids.length then
    .error (.dsgrid (fullAggCardMsg te))
  else
    match te.ids with
    | [] => .error .indexError
    | to_id :: _ =>
      match exclude_list.find? (fun x => !(fe.ids.contains x)) with
      | some x => .error (.dsgrid (fullAggExcludeMsg x fe))
      | Option.none => .ok ⟨fe, te, to_id, exclude_list⟩

/-- `FullAggregationMap.map`. -/
def FullAggregationMap.map (m : FullAggregationMap) (from_id : EId) : MapRet :=
  if m.exclude_list.contains from_id then .none else .id m.to_id

/-- `scale_factor` inherited from the `DimensionMap` base: always `1.0`. -/
def FullAggregationMap.scale_factor (_ : FullAggregationMap) (_ : EId) : ℚ := 1

/-! ## FilterToSubsetMap -/

structure FilterToSubsetMap where
  from_enum : Enumeration
  to_enum : Enumeration
deriving DecidableEq, Repr

/-- `FilterToSubsetMap.__init__`: every `to_enum` id must be in
`from_enum.ids`. -/
def FilterToSubsetMap.init (fe te : Enumeration) :
    Except Err FilterToSubsetMap :=
  if te.ids.all (fun i => fe.ids.contains i) then
    .ok ⟨fe, te⟩
  else
    .error (.dsgrid "to_enum should be a subset of from_enum")

/-- `FilterToSubsetMap.map`. -/
def FilterToSubsetMap.map (m : FilterToSubsetMap) (from_id : EId) : MapRet :=
  if m.to_enum.ids.contains from_id then .id from_id else .none

/-! ## TautologyMapping -/

/-- `TautologyMapping(from_to_enum)`: `from_enum` and `to_enum` are the
same enumeration. -/
structure TautologyMapping where
  from_to_enum : Enumeration
deriving DecidableEq, Repr

def TautologyMapping.from_enum (m : TautologyMapping) : Enumeration :=
  m.from_to_enum

def TautologyMapping.to_enum (m : TautologyMapping) : Enumeration :=
  m.from_to_enum

/-- `TautologyMapping.map`: identity. -/
def TautologyMapping.map (_ : TautologyMapping) (from_id : EId) : MapRet :=
  .id from_id

/-- `scale_factor` inherited from the base: always `1.0`. -/
def TautologyMapping.scale_factor (_ : TautologyMapping) (_ : EId) : ℚ := 1

/-! ## Fuel and end-use enumerations (external collaborators) -/

/-- Modelled from the spec: `FuelEnumeration` from the (absent)
enumeration module — parallel lists of fuel ids, display names and unit
labels, with lookup accessors `get_name` / `get_units`. -/
structure FuelEnumeration where
  name : String
  ids : List String
  names : List String
  units : List String
deriving DecidableEq, Repr

/-- Modelled from the spec: `get_name(fuel_id)` looks up the display name
parallel to `fuel_id`. -/
def FuelEnumeration.get_name (f : FuelEnumeration) (fuel_id : String) :
    Option String :=
  alook (f.ids.zip f.names) fuel_id

/-- Modelled from the spec: `get_units(fuel_id)` looks up the unit label
parallel to `fuel_id`. -/
def FuelEnumeration.get_units (f : FuelEnumeration) (fuel_id : String) :
    Option String :=
  alook (f.ids.zip f.units) fuel_id

/-- Modelled from the spec: `MultiFuelEndUseEnumeration` — ids are
(code, fuel) pairs formed from the parallel lists `_ids` and `_fuel_ids`,
with a fuel sub-enumeration. -/
structure MultiFuelEndUseEnumeration where
  name : String
  _ids : List String
  _names : List String
  fuel_enum : FuelEnumeration
  _fuel_ids : List String
deriving DecidableEq, Repr

/-- Modelled from the spec: the `ids` of a multi-fuel end-use enumeration
are the (code, fuel) pairs. -/
def MultiFuelEndUseEnumeration.ids (m : MultiFuelEndUseEnumeration) :
    List (String × String) :=
  m._ids.zip m._fuel_ids

/-- Modelled from the spec: `units(id)` reads the unit label of the id's
fuel off the fuel sub-enumeration. -/
def MultiFuelEndUseEnumeration.units (m : MultiFuelEndUseEnumeration)
    (i : String × String) : Option String :=
  m.fuel_enum.get_units i.2

/-- Modelled from the spec: `SingleFuelEndUseEnumeration` — plain string
ids plus a single fuel display name and unit label. -/
structure SingleFuelEndUseEnumeration where
  name : String
  ids : List String
  names : List String
  _fuel : String
  _units : String
deriving DecidableEq, Repr

/-! ## FilterToSingleFuelMap -/

structure FilterToSingleFuelMap where
  from_enum : MultiFuelEndUseEnumeration
  to_enum : SingleFuelEndUseEnumeration
  _map : List ((String × String) × Option String)
deriving DecidableEq, Repr

/-- The `for i, id in enumerate(from_enum.ids)` loop of
`FilterToSingleFuelMap.__init__`: walks ids and the parallel `_names`
list, keeping codes whose fuel is `keep` and recording the per-id map
entry.  `_names[i]` is only read for kept indices; reading past the end
of `_names` is the source's `IndexError`. -/
def buildSingleFuel (keep : String) :
    List (String × String) → List String →
    Except Err (List String × List String ×
      List ((String × String) × Option String))
  | [], _ => .ok ([], [], [])
  | i :: t, nms =>
    if i.2 = keep then
      match nms with
      | [] => .error .indexError
      | nm :: nt => do
        let (ids, names, mp) ← buildSingleFuel keep t nt
        .ok (i.1 :: ids, nm :: names, (i, some i.1) :: mp)
    else do
      let (ids, names, mp) ← buildSingleFuel keep t nms.tail
      .ok (ids, names, (i, Option.none) :: mp)

/-- `FilterToSingleFuelMap.__init__`: requires `fuel_to_keep` to be a fuel
id of `from_enum.fuel_enum` (an `AssertionError` otherwise), then builds
the derived single-fuel enumeration and the precomputed id table. -/
def FilterToSingleFuelMap.init (fe : MultiFuelEndUseEnumeration)
    (fuel_to_keep : String) : Except Err FilterToSingleFuelMap :=
  if fe.fuel_enum.ids.contains fuel_to_keep then
    match fe.fuel_enum.get_name fuel_to_keep, fe.fuel_enum.get_units fuel_to_keep with
    | some fuelName, some fuelUnits => do
      let (ids, names, mp) ← buildSingleFuel fuel_to_keep fe.ids fe._names
      let to_enum_name := fe.name ++ " (" ++ fuelName ++ ")"
      .ok ⟨fe, ⟨to_enum_name, ids, names, fuelName, fuelUnits⟩, mp⟩
    | _, _ => .error .keyError
  else
    .error .assertionError

/-- `FilterToSingleFuelMap.map`: a lookup in the precomputed table.  A key
outside `from_enum.ids` raises `KeyError` in the source; the model folds
that case into `MapRet.none`, and every theorem below restricts `from_id`
to `from_enum.ids`, where the table always has an entry. -/
def FilterToSingleFuelMap.map (m : FilterToSingleFuelMap)
    (from_id : String × String) : MapRet :=
  match alook m._map from_id with
  | some (some code) => .id (.str code)
  | some Option.none => .none
  | Option.none => .none

/-! ## ExplicitAggregation -/

/-- Membership error message for a `from_id` (`ExplicitDisaggregation` and
`ExplicitAggregation` `__init__`; the source interpolates the enumeration
object, the model uses its name). -/
def explicitFromMsg (x : EId) (fe : Enumeration) : String :=
  "Id " ++ eidStr x ++ " is not in from_enum " ++ fe.name ++ "."

/-- Membership error message for a `to_id`. -/
def explicitToMsg (x : EId) (te : Enumeration) : String :=
  "Id " ++ eidStr x ++ " is not in to_enum " ++ te.name ++ "."

structure ExplicitAggregation where
  from_enum : Enumeration
  to_enum : Enumeration
  _dictmap : List (EId × EId)
deriving DecidableEq, Repr

/-- The validation loop of `ExplicitAggregation.__init__`: each
(from_id, to_id) entry in table order must have `from_id` in
`from_enum.ids` and `to_id` in `to_enum.ids`, and is then assigned into
the internal dict. -/
def ExplicitAggregation.checkEntries (fe te : Enumeration) :
    List (EId × EId) → List (EId × EId) → Except Err (List (EId × EId))
  | acc, [] => .ok acc
  | acc, (fid, tid) :: rest =>
    if !(fe.ids.contains fid) then
      .error (.dsgrid (explicitFromMsg fid fe))
    else if !(te.ids.contains tid) then
      .error (.dsgrid (explicitToMsg tid te))
    else
      ExplicitAggregation.checkEntries fe te (ains acc fid tid) rest

/-- `ExplicitAggregation.__init__` over an already-parsed correspondence
table (the CSV parsing of `create_from_csv` is an external collaborator;
its `_make_dictmap` yields the (from_id, to_id) entries). -/
def ExplicitAggregation.init (fe te : Enumeration)
    (dictmap : List (EId × EId)) : Except Err ExplicitAggregation :=
  (ExplicitAggregation.checkEntries fe te [] dictmap).map
    (fun d => ⟨fe, te, d⟩)

/-- `ExplicitMap.map` as inherited by `ExplicitAggregation`: a dict lookup
defaulting to `None`. -/
def ExplicitAggregation.map (m : ExplicitAggregation) (from_id : EId) :
    MapRet :=
  match alook m._dictmap from_id with
  | some t => .id t
  | Option.none => .none

/-! ## ExplicitDisaggregation -/

/-- Modelled from the spec: the scaling datafile is an external dataset
reference that can report which enumerations it is expressed against
(`contains(enum)`). -/
structure ScalingDatafile where
  axisEnums : List Enumeration
deriving DecidableEq, Repr

/-- Modelled from the spec: `contains(enum)`. -/
def ScalingDatafile.containsEnum (d : ScalingDatafile) (e : Enumeration) :
    Bool :=
  d.axisEnums.contains e

/-- Scaling-datafile error message of `ExplicitDisaggregation.__init__`
(the source interpolates `repr` of the datafile and enumeration; the
model uses the enumeration name). -/
def disaggScalingMsg (te : Enumeration) : String :=
  "Datafile cannot be used to scale this map because it does not " ++
  "contain to_enum " ++ te.name ++ "."

structure ExplicitDisaggregation where
  from_enum : Enumeration
  to_enum : Enumeration
  _dictmap : List (EId × List EId)
  _scaling_datafile : Option ScalingDatafile
deriving DecidableEq, Repr

/-- The validation loop of `ExplicitDisaggregation.__init__`: each
`from_id` must be in `from_enum.ids` and each of its `to_ids` in
`to_enum.ids` (first offender, in order, raises). -/
def ExplicitDisaggregation.checkEntries (fe te : Enumeration) :
    List (EId × List EId) → List (EId × List EId) →
    Except Err (List (EId × List EId))
  | acc, [] => .ok acc
  | acc, (fid, tids) :: rest =>
    if !(fe.ids.contains fid) then
      .error (.dsgrid (explicitFromMsg fid fe))
    else
      match tids.find? (fun t => !(te.ids.contains t)) with
      | some t => .error (.dsgrid (explicitToMsg t te))
      | Option.none =>
        ExplicitDisaggregation.checkEntries fe te (ains acc fid tids) rest

/-- `ExplicitDisaggregation.__init__`: validates the table, then checks
that a supplied scaling datafile contains `to_enum`. -/
def ExplicitDisaggregation.init (fe te : Enumeration)
    (dictmap : List (EId × List EId))
    (scaling_datafile : Option ScalingDatafile) :
    Except Err ExplicitDisaggregation := do
  let d ← ExplicitDisaggregation.checkEntries fe te [] dictmap
  match scaling_datafile with
  | some sdf =>
    if !(sdf.containsEnum te) then
      .error (.dsgrid (disaggScalingMsg te))
    else
      .ok ⟨fe, te, d, scaling_datafile⟩
  | Option.none => .ok ⟨fe, te, d, scaling_datafile⟩

/-- `ExplicitMap.map` as inherited by `ExplicitDisaggregation`, whose
`__init__` replaces `_dictmap` with a `defaultdict(lambda: [])` of to-id
lists: the lookup returns a list (the empty list for absent keys), never
`None` and never a bare id. -/
def ExplicitDisaggregation.map (m : ExplicitDisaggregation) (from_id : EId) :
    MapRet :=
  .list ((alook m._dictmap from_id).getD [])

/-- `ExplicitDisaggregation.default_scaling`. -/
def ExplicitDisaggregation.default_scaling (m : ExplicitDisaggregation) :
    Bool :=
  m._scaling_datafile.isNone

/-- `ExplicitDisaggregation.get_scalings`.  The default-scaling branch is
`np.array([1.0 for to_id in to_ids])`.  The non-default branch reads the
external `Datatable` collaborator (absent from this core) and is out of
scope, modelled as `Option.none`. -/
def ExplicitDisaggregation.get_scalings (m : ExplicitDisaggregation)
    (to_ids : List EId) : Option (List ℚ) :=
  if m.default_scaling then
    some (to_ids.map (fun _ => (1 : ℚ)))
  else
    Option.none

/-! ## UnitConversionMap: factor solver -/

/-- An exact model of the IEEE-double factor values: an integer fraction,
kept unnormalized (the solver multiplies and inverts factors but never
compares them).  On every value arising from the seed table below,
double arithmetic is exact, so the fraction's rational value `PyF.val`
agrees with the float the code computes. -/
structure PyF where
  num : Int
  den : Int
deriving DecidableEq, Repr

/-- Product of two factors. -/
def PyF.mul (a b : PyF) : PyF := ⟨a.num * b.num, a.den * b.den⟩

/-- `1.0 / factor`. -/
def PyF.oneDiv (a : PyF) : PyF := ⟨a.den, a.num⟩

/-- The rational value of a factor. -/
def PyF.val (a : PyF) : ℚ := (a.num : ℚ) / (a.den : ℚ)

/-- `UnitConversionMap.CONVERSION_FACTORS`: the seed ratio table.  The
float literal `1.0E-3` is modelled by the exact fraction `1/1000`. -/
def CONVERSION_FACTORS : List ((String × String) × PyF) :=
  [(("kWh", "MWh"), ⟨1, 1000⟩), (("MWh", "GWh"), ⟨1, 1000⟩),
   (("GWh", "TWh"), ⟨1, 1000⟩)]

/-- The units mentioned anywhere in a ratio table. -/
def unitsOf (factors : List ((String × String) × PyF)) : List String :=
  (factors.foldr (fun uf acc => uf.1.1 :: uf.1.2 :: acc) []).dedup

/-- The body of the `for units, factor in factors.items()` loop of
`UnitConversionMap._get_all_factors`: record the entry if it reaches
`to_unit` directly, and its inverse if it leaves `to_unit`. -/
def gafStep (to_unit : String) (result : List ((String × String) × PyF))
    (uf : (String × String) × PyF) : List ((String × String) × PyF) :=
  let result1 := if uf.1.2 = to_unit then ains result uf.1 uf.2 else result
  if uf.1.1 = to_unit then ains result1 (uf.1.2, uf.1.1) uf.2.oneDiv
  else result1

/-- `UnitConversionMap._get_all_factors`: all table entries whose second
unit is `to_unit`, plus the inverse of every entry whose first unit is
`to_unit`, each multiplied by `multiplier` when one is given. -/
def getAllFactors (to_unit : String) (factors : List ((String × String) × PyF))
    (multiplier : Option PyF) : List ((String × String) × PyF) :=
  let base := factors.foldl (gafStep to_unit) []
  match multiplier with
  | some m => base.map (fun p => (p.1, p.2.mul m))
  | Option.none => base

/-- The body of the `for b_key, val in candidates.items()` loop of
`UnitConversionMap.scaling_factor`: add the composed pair when its key is
not yet known (checked against the live table, as the source does),
raising the `something_added` flag. -/
def epInner (to_unit : String) (acc2 : List ((String × String) × PyF) × Bool)
    (bf : (String × String) × PyF) : List ((String × String) × PyF) × Bool :=
  let c_key := (bf.1.1, to_unit)
  if (alook acc2.1 c_key).isSome then acc2
  else (acc2.1 ++ [(c_key, bf.2)], true)

/-- The body of the `for a_key, factor in to_expand` loop of
`UnitConversionMap.scaling_factor`: compose the known pair with every
ratio reaching its origin unit. -/
def epOuter (to_unit : String) (factors : List ((String × String) × PyF))
    (acc : List ((String × String) × PyF) × Bool)
    (af : (String × String) × PyF) : List ((String × String) × PyF) × Bool :=
  (getAllFactors af.1.1 factors (some af.2)).foldl (epInner to_unit) acc

/-- One full pass of the `while something_added` loop of
`UnitConversionMap.scaling_factor`: iterates over a snapshot of the known
pairs, and for each one composes it with every ratio reaching its origin
unit, adding pairs not yet known.  Returns the grown table and the
`something_added` flag. -/
def expandPass (to_unit : String) (factors : List ((String × String) × PyF))
    (these : List ((String × String) × PyF)) :
    List ((String × String) × PyF) × Bool :=
  these.foldl (epOuter to_unit factors) (these, false)

/-- The failure message of `UnitConversionMap.scaling_factor`, naming both
units. -/
def noConvMsg (from_unit to_unit : String) : String :=
  "No conversion factor available to go from " ++ from_unit ++ " to " ++
  to_unit ++ "."

/-- The `while something_added` loop of `UnitConversionMap.scaling_factor`
with explicit fuel: each iteration runs one expansion pass, returns the
factor if the requested key is now known, loops while something was
added, and otherwise raises `DSGridNotImplemented`.  `Option.none` is the
fuel-exhaustion sentinel, proved unreachable for the fuel used below. -/
def sfLoop (factors : List ((String × String) × PyF)) (key : String × String)
    (to_unit : String) :
    Nat → List ((String × String) × PyF) → Option (Except Err PyF)
  | 0, _ => Option.none
  | fuel + 1, these =>
    let pass := expandPass to_unit factors these
    match alook pass.1 key with
    | some v => some (.ok v)
    | Option.none =>
      if pass.2 then sfLoop factors key to_unit fuel pass.1
      else some (.error (.notImplemented (noConvMsg key.1 key.2)))

/-- `UnitConversionMap.scaling_factor` (fuelled form): seeds the known
pairs with everything reaching `to_unit` directly, returns at once on a
direct hit, and otherwise runs the expansion loop.  The fuel
`(unitsOf factors).length + 1` is proved sufficient below. -/
def scaling_factorO (factors : List ((String × String) × PyF))
    (from_unit to_unit : String) : Option (Except Err PyF) :=
  let key := (from_unit, to_unit)
  let these := getAllFactors to_unit factors Option.none
  match alook these key with
  | some v => some (.ok v)
  | Option.none => sfLoop factors key to_unit ((unitsOf factors).length + 1) these

/-- `UnitConversionMap.scaling_factor`: the fuelled loop with the
(unreachable) fuel-exhaustion sentinel discharged. -/
def scaling_factor (factors : List ((String × String) × PyF))
    (from_unit to_unit : String) : Except Err PyF :=
  (scaling_factorO factors from_unit to_unit).getD (.error .fuelOut)

/-! ## UnitConversionMap: variants

The Python class branches on the runtime type of `from_enum`
(single-fuel vs multi-fuel); the model splits the one constructor into
`UnitConversionMapS.init` and `UnitConversionMapM.init`. -/

/-- The single-fuel branch of `UnitConversionMap`: `_scale_map` is the one
scalar factor. -/
structure UnitConversionMapS where
  from_enum : SingleFuelEndUseEnumeration
  to_enum : SingleFuelEndUseEnumeration
  _scale : PyF
deriving DecidableEq, Repr

/-- `UnitConversionMap.__init__`, single-fuel branch: length asserts, the
single `from_units` entry must equal the enumeration's unit, the target
enumeration renames the unit in the name (both cases) and carries the
same ids and names, and the one scalar factor comes from
`scaling_factor`. -/
def UnitConversionMapS.init (fe : SingleFuelEndUseEnumeration)
    (from_units to_units : List String) : Except Err UnitConversionMapS :=
  if from_units.length ≠ to_units.length then .error .assertionError
  else if from_units.length = 0 then .error .assertionError
  else
    match from_units, to_units with
    | [fu], [tu] =>
      if fu = fe._units then do
        let name1 := fe.name.replace fu tu
        let to_enum_name := name1.replace fu.toLower tu.toLower
        let s ← scaling_factor CONVERSION_FACTORS fu tu
        .ok ⟨fe, ⟨to_enum_name, fe.ids, fe.names, fe._fuel, tu⟩, s⟩
      else .error .assertionError
    | _, _ => .error .assertionError

/-- `UnitConversionMap.map`, single-fuel: identity on ids. -/
def UnitConversionMapS.map (_ : UnitConversionMapS) (from_id : String) :
    MapRet :=
  .id (.str from_id)

/-- `UnitConversionMap.scale_factor` when `_scale_map` is the scalar. -/
def UnitConversionMapS.scale_factor (m : UnitConversionMapS) (_ : String) :
    PyF :=
  m._scale

/-- The multi-fuel branch of `UnitConversionMap`: `_scale_map` is a
per-id dict defaulting to `1.0`. -/
structure UnitConversionMapM where
  from_enum : MultiFuelEndUseEnumeration
  to_enum : MultiFuelEndUseEnumeration
  _scale_map : List ((String × String) × PyF)
deriving DecidableEq, Repr

/-- The `for id in from_enum.ids` loop of the multi-fuel branch: ids whose
current unit is converted get a factor from `scaling_factor`.  A fuel id
missing from the fuel sub-enumeration would raise in the source
(`keyError` here). -/
def buildScaleMap (fe : MultiFuelEndUseEnumeration)
    (from_units to_units : List String) :
    List (String × String) → List ((String × String) × PyF) →
    Except Err (List ((String × String) × PyF))
  | [], acc => .ok acc
  | i :: rest, acc =>
    match fe.units i with
    | Option.none => .error .keyError
    | some u =>
      if from_units.contains u then do
        let tu := (to_units.get? (from_units.findIdx (fun x => x = u))).getD u
        let s ← scaling_factor CONVERSION_FACTORS u tu
        buildScaleMap fe from_units to_units rest (ains acc i s)
      else
        buildScaleMap fe from_units to_units rest acc

/-- `UnitConversionMap.__init__`, multi-fuel branch: length asserts, every
`from_units` entry must be a unit of the fuel sub-enumeration, the target
fuel enumeration substitutes converted units position by position
(`to_units[from_units.index(unit)]`), and the per-id scale map covers
exactly the ids whose unit is converted. -/
def UnitConversionMapM.init (fe : MultiFuelEndUseEnumeration)
    (from_units to_units : List String) : Except Err UnitConversionMapM :=
  if from_units.length ≠ to_units.length then .error .assertionError
  else if from_units.length = 0 then .error .assertionError
  else if !(from_units.all (fun u => fe.fuel_enum.units.contains u)) then
    .error .assertionError
  else do
    let to_fuel_enum_units := fe.fuel_enum.units.map (fun u =>
      if from_units.contains u then
        (to_units.get? (from_units.findIdx (fun x => x = u))).getD u
      else u)
    let to_fuel_enum : FuelEnumeration :=
      ⟨fe.fuel_enum.name, fe.fuel_enum.ids, fe.fuel_enum.names,
        to_fuel_enum_units⟩
    let to_enum : MultiFuelEndUseEnumeration :=
      ⟨fe.name, fe._ids, fe._names, to_fuel_enum, fe._fuel_ids⟩
    let sm ← buildScaleMap fe from_units to_units fe.ids []
    .ok ⟨fe, to_enum, sm⟩

/-- `UnitConversionMap.map`, multi-fuel: identity on ids. -/
def UnitConversionMapM.map (_ : UnitConversionMapM)
    (from_id : String × String) : MapRet :=
  .id (.pair from_id.1 from_id.2)

/-- `UnitConversionMap.scale_factor` when `_scale_map` is the per-id dict
defaulting to `1.0`. -/
def UnitConversionMapM.scale_factor (m : UnitConversionMapM)
    (from_id : String × String) : PyF :=
  (alook m._scale_map from_id).getD ⟨1, 1⟩

/-! ## Mappings registry -/

/-- What the registry's resolution code reads off a stored `DimensionMap`:
its two enumerations. -/
structure StoredMapping where
  from_enum : Enumeration
  to_enum : Enumeration
deriving DecidableEq, Repr

/-- The `Mappings` registry: an insertion-ordered dict keyed by
`(from_enum.name, to_enum.name)`. -/
structure Mappings where
  _mappings : List ((String × String) × StoredMapping)
deriving DecidableEq, Repr

/-- `Mappings.add_mapping`: dict assignment, so an existing key keeps its
position (last write wins in value). -/
def Mappings.add_mapping (ms : Mappings) (m : StoredMapping) : Mappings :=
  ⟨ains ms._mappings (m.from_enum.name, m.to_enum.name) m⟩

/-- What a dataset hands the registry: its four axis enumerations. -/
structure Datafile where
  sector_enum : Enumeration
  geo_enum : Enumeration
  enduse_enum : Enumeration
  time_enum : Enumeration
deriving DecidableEq, Repr

/-- The axis read off the datafile for the requested target kind (the
`isinstance` cascade at the top of `Mappings.get_mapping`). -/
def Datafile.axisFor (df : Datafile) (k : EnumKind) : Enumeration :=
  match k with
  | .sector => df.sector_enum
  | .geography => df.geo_enum
  | .enduse => df.enduse_enum
  | .time => df.time_enum

/-- The possible results of `Mappings.get_mapping`: a stored mapping, a
fresh `TautologyMapping(to_enum)`, or Python `None`. -/
inductive GetMappingResult
  | stored (m : StoredMapping)
  | tautology (e : Enumeration)
  | nothing
deriving DecidableEq, Repr

/-- The candidate scan at the end of `Mappings.get_mapping`: the first
stored mapping (in registry order) whose `from_enum.ids` contains every
id of `fe`, with the inner loop's `okay` flag rendered as an `all`
check. -/
def scanCandidates (fe : Enumeration) :
    List StoredMapping → GetMappingResult
  | [] => .nothing
  | c :: rest =>
    if fe.ids.all (fun i => c.from_enum.ids.contains i) then .stored c
    else scanCandidates fe rest

/-- `Mappings.get_mapping`: resolve `from_enum` from the datafile by the
target's kind, try the exact key, then the tautology cases, then the
candidate scan. -/
def Mappings.get_mapping (ms : Mappings) (df : Datafile)
    (to_enum : Enumeration) : GetMappingResult :=
  let from_enum := df.axisFor to_enum.kind
  let key := (from_enum.name, to_enum.name)
  match alook ms._mappings key with
  | some m => .stored m
  | Option.none =>
    if enumEq from_enum to_enum then .tautology to_enum
    else if isSubset from_enum to_enum then .tautology to_enum
    else
      scanCandidates from_enum
        ((ms._mappings.filter (fun p => p.1.2 = to_enum.name)).map (fun p => p.2))

/-- The resolution order as the claim states it, written with list
combinators rather than the source's loops: (1) an exact stored mapping
under the key; (2) a fresh tautology when the enumerations are equal or
the source is a subset of the target; (3) the first stored mapping, in
registry insertion order among those keyed to `to_enum.name`, whose
`from_enum.ids` contains every id of `from_enum`; (4) null. -/
def getMappingSpec (ms : Mappings) (df : Datafile)
    (to_enum : Enumeration) : GetMappingResult :=
  let from_enum := df.axisFor to_enum.kind
  match ms._mappings.find? (fun p => p.1 = (from_enum.name, to_enum.name)) with
  | some p => .stored p.2
  | Option.none =>
    if enumEq from_enum to_enum || isSubset from_enum to_enum then
      .tautology to_enum
    else
      match (ms._mappings.filter (fun p => p.1.2 = to_enum.name)).find?
          (fun p => from_enum.ids.all (fun i => p.2.from_enum.ids.contains i)) with
      | some p => .stored p.2
      | Option.none => .nothing

/-! ## Helper instances and lemmas -/

instance instDecEqExcept {ε α : Type} [DecidableEq ε] [DecidableEq α] :
    DecidableEq (Except ε α)
  | .ok a, .ok b =>
    if h : a = b then .isTrue (by rw [h]) else .isFalse (by simp [h])
  | .error a, .error b =>
    if h : a = b then .isTrue (by rw [h]) else .isFalse (by simp [h])
  | .ok _, .error _ => .isFalse (by simp)
  | .error _, .ok _ => .isFalse (by simp)

/-- A small geography enumeration used to instantiate theorems. -/
def sampleFrom : Enumeration :=
  ⟨"sample-from", [.str "a", .str "b", .str "c"], ["A", "B", "C"], .geography⟩

/-- A one-id aggregate target enumeration. -/
def sampleTo1 : Enumeration :=
  ⟨"sample-to1", [.str "t"], ["T"], .geography⟩

/-- A two-id target enumeration. -/
def sampleTo2 : Enumeration :=
  ⟨"sample-to2", [.str "x", .str "y"], ["X", "Y"], .geography⟩

/-- An empty target enumeration. -/
def sampleTo0 : Enumeration :=
  ⟨"sample-to0", [], [], .geography⟩

/-- A subset of `sampleFrom`. -/
def sampleSub : Enumeration :=
  ⟨"sample-sub", [.str "a", .str "b"], ["A", "B"], .geography⟩

/-! ## Claims -/

/-- C10: constructing `FullAggregationMap` with an empty `to_enum.ids`
passes the cardinality check (which only rejects more than one id) and
fails on the out-of-bounds `to_enum.ids[0]` with an uncontrolled
`IndexError`, not with a `ConfigurationError`-class `DSGridError`;
a non-empty `to_enum` is an unstated precondition. -/
theorem claim10_full_aggregation_empty_to_enum
    (fe te : Enumeration) (ex : List EId) (hte : te.ids = []) :
    FullAggregationMap.init fe te ex = .error .indexError ∧
    (∀ msg, Err.indexError ≠ Err.dsgrid msg) := by
  constructor
  · rw [FullAggregationMap.init, hte]
    simp
  · intro msg h
    cases h

/-- Witness for C10 at a concrete empty target enumeration. -/
theorem claim10_full_aggregation_empty_to_enum_witness :
    FullAggregationMap.init sampleFrom sampleTo0 [] = .error .indexError ∧
    (∀ msg, Err.indexError ≠ Err.dsgrid msg) :=
  claim10_full_aggregation_empty_to_enum sampleFrom sampleTo0 [] rfl

/-- C6: for every successfully constructed
`FullAggregationMap(from_enum, to_enum, exclude_list)` and id in
`from_enum.ids`: excluded ids map to null, all others map to
`to_enum.ids[0]` (the single aggregate target held in `to_id`), and
`scale_factor` stays at the default `1.0`. -/
theorem claim6_full_aggregation_map_behavior
    (fe te : Enumeration) (ex : List EId) (m : FullAggregationMap)
    (hm : FullAggregationMap.init fe te ex = .ok m)
    (i : EId) (hi : i ∈ fe.ids) :
    te.ids.head? = some m.to_id ∧
    (i ∈ ex → m.map i = .none) ∧
    (i ∉ ex → m.map i = .id m.to_id) ∧
    m.scale_factor i = 1 := by
  rw [FullAggregationMap.init] at hm
  split at hm
  · exact absurd hm (by simp)
  · split at hm
    · exact absurd hm (by simp)
    · split at hm
      · exact absurd hm (by simp)
      · rename_i hids _ _
        rw [Except.ok.injEq] at hm
        subst hm
        refine ⟨by rw [hids]; rfl, ?_, ?_, rfl⟩
        · intro h
          simp [FullAggregationMap.map, List.elem_iff, h]
        · intro h
          simp [FullAggregationMap.map, List.elem_iff, h]

/-- Witness for C6 at a concrete aggregation with one excluded id. -/
theorem claim6_full_aggregation_map_behavior_witness :
    sampleTo1.ids.head? = some (FullAggregationMap.mk sampleFrom sampleTo1
      (.str "t") [.str "b"]).to_id ∧
    (EId.str "b" ∈ [EId.str "b"] →
      (FullAggregationMap.mk sampleFrom sampleTo1 (.str "t")
        [.str "b"]).map (.str "b") = .none) ∧
    (EId.str "b" ∉ [EId.str "b"] →
      (FullAggregationMap.mk sampleFrom sampleTo1 (.str "t")
        [.str "b"]).map (.str "b") = .id (FullAggregationMap.mk sampleFrom
          sampleTo1 (.str "t") [.str "b"]).to_id) ∧
    (FullAggregationMap.mk sampleFrom sampleTo1 (.str "t")
      [.str "b"]).scale_factor (.str "b") = 1 :=
  claim6_full_aggregation_map_behavior sampleFrom sampleTo1 [.str "b"]
    (FullAggregationMap.mk sampleFrom sampleTo1 (.str "t") [.str "b"])
    (by decide) (.str "b") (by decide)

/-- C8: for every successfully constructed
`FilterToSubsetMap(from_enum, to_enum)`: ids of `to_enum.ids` map to
themselves, and ids of `from_enum.ids` outside `to_enum.ids` map to
null. -/
theorem claim8_filter_to_subset_map
    (fe te : Enumeration) (m : FilterToSubsetMap)
    (hm : FilterToSubsetMap.init fe te = .ok m) (i : EId) :
    (i ∈ te.ids → m.map i = .id i) ∧
    (i ∈ fe.ids → i ∉ te.ids → m.map i = .none) := by
  rw [FilterToSubsetMap.init] at hm
  split at hm
  · rw [Except.ok.injEq] at hm
    subst hm
    constructor
    · intro h
      simp [FilterToSubsetMap.map, List.elem_iff, h]
    · intro _ h
      simp [FilterToSubsetMap.map, List.elem_iff, h]
  · exact absurd hm (by simp)

/-- Witness for C8 at a concrete subset filter, checking one kept id and
one dropped id. -/
theorem claim8_filter_to_subset_map_witness :
    ((EId.str "a" ∈ sampleSub.ids →
      (FilterToSubsetMap.mk sampleFrom sampleSub).map (.str "a") =
        .id (.str "a")) ∧
     (EId.str "a" ∈ sampleFrom.ids → EId.str "a" ∉ sampleSub.ids →
      (FilterToSubsetMap.mk sampleFrom sampleSub).map (.str "a") = .none)) ∧
    ((EId.str "c" ∈ sampleSub.ids →
      (FilterToSubsetMap.mk sampleFrom sampleSub).map (.str "c") =
        .id (.str "c")) ∧
     (EId.str "c" ∈ sampleFrom.ids → EId.str "c" ∉ sampleSub.ids →
      (FilterToSubsetMap.mk sampleFrom sampleSub).map (.str "c") = .none)) :=
  ⟨claim8_filter_to_subset_map sampleFrom sampleSub
      (FilterToSubsetMap.mk sampleFrom sampleSub) (by decide) (.str "a"),
   claim8_filter_to_subset_map sampleFrom sampleSub
      (FilterToSubsetMap.mk sampleFrom sampleSub) (by decide) (.str "c")⟩

/-- C9: an `ExplicitDisaggregation` constructed without a scaling data
source has `default_scaling`, and `get_scalings(to_ids)` on a non-empty
`to_ids` returns exactly `len(to_ids)` entries, each `1.0`. -/
theorem claim9_disagg_default_scalings
    (fe te : Enumeration) (dm : List (EId × List EId))
    (d : ExplicitDisaggregation)
    (hd : ExplicitDisaggregation.init fe te dm Option.none = .ok d)
    (to_ids : List EId) (hne : to_ids ≠ []) :
    ∃ l, d.get_scalings to_ids = some l ∧ l.length = to_ids.length ∧
      ∀ x ∈ l, x = (1 : ℚ) := by
  rw [ExplicitDisaggregation.init] at hd
  cases hch : ExplicitDisaggregation.checkEntries fe te [] dm with
  | error e =>
    rw [hch] at hd
    exact absurd hd (by simp [Bind.bind, Except.bind])
  | ok dd =>
    rw [hch] at hd
    simp only [Bind.bind, Except.bind, Except.ok.injEq] at hd
    subst hd
    refine ⟨to_ids.map (fun _ => (1 : ℚ)), ?_, by simp, by simp⟩
    rw [ExplicitDisaggregation.get_scalings]
    simp [ExplicitDisaggregation.default_scaling]

/-- Witness for C9 at a concrete disaggregation with no scaling
datafile. -/
theorem claim9_disagg_default_scalings_witness :
    ∃ l, (ExplicitDisaggregation.mk sampleFrom sampleTo2
      [(.str "a", [.str "x", .str "y"])] Option.none).get_scalings
        [.str "x", .str "y"] = some l ∧
      l.length = [EId.str "x", EId.str "y"].length ∧ ∀ x ∈ l, x = (1 : ℚ) :=
  claim9_disagg_default_scalings sampleFrom sampleTo2
    [(.str "a", [.str "x", .str "y"])]
    (ExplicitDisaggregation.mk sampleFrom sampleTo2
      [(.str "a", [.str "x", .str "y"])] Option.none)
    (by decide) [.str "x", .str "y"] (by decide)

/-- The validation loop of `ExplicitAggregation.__init__` fails, naming
the first offending id and its enumeration, whenever some table entry
references an out-of-domain id (any accumulator). -/
theorem explicitAgg_checkEntries_err (fe te : Enumeration) :
    ∀ (dm : List (EId × EId)) (acc : List (EId × EId)),
    (∃ p ∈ dm, p.1 ∉ fe.ids ∨ p.2 ∉ te.ids) →
    ∃ p, p ∈ dm ∧
      ((p.1 ∉ fe.ids ∧ ExplicitAggregation.checkEntries fe te acc dm =
          .error (.dsgrid (explicitFromMsg p.1 fe))) ∨
       (p.2 ∉ te.ids ∧ ExplicitAggregation.checkEntries fe te acc dm =
          .error (.dsgrid (explicitToMsg p.2 te)))) := by
  intro dm
  induction dm with
  | nil => intro acc h; exact absurd h (by simp)
  | cons hd tl ih =>
    intro acc h
    by_cases h1 : hd.1 ∈ fe.ids
    · by_cases h2 : hd.2 ∈ te.ids
      · have htl : ∃ p ∈ tl, p.1 ∉ fe.ids ∨ p.2 ∉ te.ids := by
          rcases h with ⟨p, hp, hbad⟩
          rcases List.mem_cons.mp hp with heq | hmem
          · subst heq
            rcases hbad with hb | hb
            · exact absurd h1 hb
            · exact absurd h2 hb
          · exact ⟨p, hmem, hbad⟩
        rcases ih (ains acc hd.1 hd.2) htl with ⟨p, hp, hcase⟩
        refine ⟨p, List.mem_cons_of_mem _ hp, ?_⟩
        have hstep : ExplicitAggregation.checkEntries fe te acc (hd :: tl) =
            ExplicitAggregation.checkEntries fe te (ains acc hd.1 hd.2) tl := by
          obtain ⟨f, t⟩ := hd
          rw [ExplicitAggregation.checkEntries]
          simp only at h1 h2
          simp [List.elem_iff, h1, h2]
        rw [hstep]
        exact hcase
      · refine ⟨hd, List.mem_cons_self _ _, Or.inr ⟨h2, ?_⟩⟩
        obtain ⟨f, t⟩ := hd
        rw [ExplicitAggregation.checkEntries]
        simp only at h1 h2
        simp [List.elem_iff, h1, h2]
    · refine ⟨hd, List.mem_cons_self _ _, Or.inl ⟨h1, ?_⟩⟩
      obtain ⟨f, t⟩ := hd
      rw [ExplicitAggregation.checkEntries]
      simp only at h1
      simp [List.elem_iff, h1]

/-- C7: construction validation is eager and raises the
`ConfigurationError`-class `DSGridError`: a `FullAggregationMap` target
with two or more ids, a `FullAggregationMap` exclude-list entry outside
`from_enum.ids`, and an `ExplicitAggregation` table entry whose from-id
or to-id is outside its enumeration, each fail at construction with an
error naming the offending id and enumeration. -/
theorem claim7_eager_construction_errors :
    (∀ (fe te : Enumeration) (ex : List EId), 1 < te.ids.length →
      FullAggregationMap.init fe te ex =
        .error (.dsgrid (fullAggCardMsg te))) ∧
    (∀ (fe te : Enumeration) (ex : List EId), te.ids.length ≤ 1 →
      te.ids ≠ [] → (∃ x ∈ ex, x ∉ fe.ids) →
      ∃ x, x ∈ ex ∧ x ∉ fe.ids ∧
        FullAggregationMap.init fe te ex =
          .error (.dsgrid (fullAggExcludeMsg x fe))) ∧
    (∀ (fe te : Enumeration) (dm : List (EId × EId)),
      (∃ p ∈ dm, p.1 ∉ fe.ids ∨ p.2 ∉ te.ids) →
      ∃ p, p ∈ dm ∧
        ((p.1 ∉ fe.ids ∧ ExplicitAggregation.init fe te dm =
            .error (.dsgrid (explicitFromMsg p.1 fe))) ∨
         (p.2 ∉ te.ids ∧ ExplicitAggregation.init fe te dm =
            .error (.dsgrid (explicitToMsg p.2 te))))) := by
  refine ⟨?_, ?_, ?_⟩
  · intro fe te ex hlen
    rw [FullAggregationMap.init]
    simp [hlen]
  · intro fe te ex hlen hne hbad
    have hfind : ∃ x, ex.find? (fun x => !(fe.ids.contains x)) = some x := by
      rcases hbad with ⟨x, hx, hnot⟩
      have : (ex.find? (fun x => !(fe.ids.contains x))).isSome :=
        List.find?_isSome.mpr ⟨x, hx, by simp [List.elem_iff, hnot]⟩
      exact Option.isSome_iff_exists.mp this
    rcases hfind with ⟨x, hx⟩
    have hxmem : x ∈ ex := List.mem_of_find?_eq_some hx
    have hxnot : x ∉ fe.ids := by
      have := List.find?_some hx
      simp [List.elem_iff] at this
      exact this
    refine ⟨x, hxmem, hxnot, ?_⟩
    rw [FullAggregationMap.init]
    split
    · rename_i h
      omega
    · split
      · rename_i h
        exact absurd h hne
      · split
        · rename_i x' hfound
          rw [hx] at hfound
          rw [Option.some.injEq] at hfound
          rw [hfound]
        · rename_i hnone
          rw [hx] at hnone
          cases hnone
  · intro fe te dm hbad
    rcases explicitAgg_checkEntries_err fe te dm [] hbad with ⟨p, hp, hcase⟩
    refine ⟨p, hp, ?_⟩
    rcases hcase with ⟨hnot, herr⟩ | ⟨hnot, herr⟩
    · exact Or.inl ⟨hnot, by rw [ExplicitAggregation.init, herr]; rfl⟩
    · exact Or.inr ⟨hnot, by rw [ExplicitAggregation.init, herr]; rfl⟩

/-- Witness for C7: a two-id target rejected by `FullAggregationMap`, an
out-of-domain exclude entry rejected by `FullAggregationMap`, and
out-of-domain from- and to-ids rejected by `ExplicitAggregation`. -/
theorem claim7_eager_construction_errors_witness :
    (FullAggregationMap.init sampleFrom sampleTo2 [] =
      .error (.dsgrid (fullAggCardMsg sampleTo2))) ∧
    (∃ x, x ∈ [EId.str "z"] ∧ x ∉ sampleFrom.ids ∧
      FullAggregationMap.init sampleFrom sampleTo1 [.str "z"] =
        .error (.dsgrid (fullAggExcludeMsg x sampleFrom))) ∧
    (∃ p, p ∈ [(EId.str "z", EId.str "x")] ∧
      ((p.1 ∉ sampleFrom.ids ∧
        ExplicitAggregation.init sampleFrom sampleTo2
          [(.str "z", .str "x")] =
            .error (.dsgrid (explicitFromMsg p.1 sampleFrom))) ∨
       (p.2 ∉ sampleTo2.ids ∧
        ExplicitAggregation.init sampleFrom sampleTo2
          [(.str "z", .str "x")] =
            .error (.dsgrid (explicitToMsg p.2 sampleTo2))))) :=
  ⟨claim7_eager_construction_errors.1 sampleFrom sampleTo2 [] (by decide),
   claim7_eager_construction_errors.2.1 sampleFrom sampleTo1 [.str "z"]
     (by decide) (by decide) ⟨.str "z", by decide, by decide⟩,
   claim7_eager_construction_errors.2.2 sampleFrom sampleTo2
     [(.str "z", .str "x")] ⟨(.str "z", .str "x"), by decide, by decide⟩⟩

/-- C3: against the seed table, the kWh→GWh factor is the derived
(not seeded) `1e-6`, and the GWh→kWh factor is the derived `1e6`
(inversion plus composition). -/
theorem claim3_unit_conversion_transitivity :
    (scaling_factor CONVERSION_FACTORS "kWh" "GWh").map PyF.val =
      .ok (1 / 1000000) ∧
    alook CONVERSION_FACTORS ("kWh", "GWh") = Option.none ∧
    (scaling_factor CONVERSION_FACTORS "GWh" "kWh").map PyF.val =
      .ok 1000000 ∧
    alook CONVERSION_FACTORS ("GWh", "kWh") = Option.none := by
  refine ⟨?_, by decide, ?_, by decide⟩
  · have h : scaling_factor CONVERSION_FACTORS "kWh" "GWh" =
        .ok ⟨1, 1000000⟩ := by decide
    rw [h]
    show Except.ok (PyF.val ⟨1, 1000000⟩) = _
    rw [PyF.val]
    norm_num
  · have h : scaling_factor CONVERSION_FACTORS "GWh" "kWh" =
        .ok ⟨1000000, 1⟩ := by decide
    rw [h]
    show Except.ok (PyF.val ⟨1000000, 1⟩) = _
    rw [PyF.val]
    norm_num

/-- Dict lookup agrees with first-match search over the entry list. -/
theorem alook_eq_find {α β : Type} [DecidableEq α] (l : List (α × β))
    (k : α) :
    alook l k = (l.find? (fun p => p.1 = k)).map Prod.snd := by
  induction l with
  | nil => rfl
  | cons h t ih =>
    obtain ⟨a, b⟩ := h
    rw [alook]
    by_cases hak : a = k
    · simp [List.find?_cons, hak]
    · simp [List.find?_cons, hak, ih]

/-- The candidate scan is the first-match search over the filtered
registry entries. -/
theorem scanCandidates_eq_find (fe : Enumeration)
    (l : List ((String × String) × StoredMapping)) :
    scanCandidates fe (l.map (fun p => p.2)) =
      (match l.find? (fun p =>
          fe.ids.all (fun i => p.2.from_enum.ids.contains i)) with
        | some p => GetMappingResult.stored p.2
        | Option.none => GetMappingResult.nothing) := by
  induction l with
  | nil => rfl
  | cons h t ih =>
    rw [List.map_cons, scanCandidates]
    cases hc : fe.ids.all (fun i => h.2.from_enum.ids.contains i) with
    | true =>
      rw [if_pos rfl]
      simp only [List.find?, hc]
    | false =>
      rw [if_neg Bool.false_ne_true]
      simp only [List.find?, hc]
      exact ih

/-- C1: `Mappings.get_mapping` resolves exactly in the claimed order:
(1) an exact stored mapping under `(from_enum.name, to_enum.name)`;
(2) otherwise a fresh `TautologyMapping(to_enum)` when `from_enum ==
to_enum` or `from_enum.is_subset(to_enum)`; (3) otherwise the first
stored mapping, in registry insertion order among those keyed to
`to_enum.name`, whose `from_enum.ids` contains every id of `from_enum`;
(4) otherwise null.  In particular an exact-key match wins over a
subset-compatible tautology. -/
theorem claim1_registry_resolution_order (ms : Mappings) (df : Datafile)
    (te : Enumeration) :
    Mappings.get_mapping ms df te = getMappingSpec ms df te := by
  rw [Mappings.get_mapping, getMappingSpec]
  rw [alook_eq_find ms._mappings (((df.axisFor te.kind).name, te.name))]
  cases hf : ms._mappings.find?
      (fun p => p.1 = ((df.axisFor te.kind).name, te.name)) with
  | some p => simp
  | none =>
    simp only [Option.map_none']
    by_cases h1 : enumEq (df.axisFor te.kind) te = true
    · simp [h1]
    · simp only [Bool.not_eq_true] at h1
      by_cases h2 : isSubset (df.axisFor te.kind) te = true
      · simp [h1, h2]
      · simp only [Bool.not_eq_true] at h2
        simp only [h1, h2, Bool.false_eq_true, if_false, Bool.or_self]
        exact scanCandidates_eq_find (df.axisFor te.kind)
          (ms._mappings.filter (fun p => p.1.2 = te.name))

/-- A successful dict lookup is a membership in the entry list. -/
theorem alook_mem {α β : Type} [DecidableEq α] (l : List (α × β)) (k : α)
    (v : β) (h : alook l k = some v) : (k, v) ∈ l := by
  induction l with
  | nil => cases h
  | cons p t ih =>
    obtain ⟨a, b⟩ := p
    rw [alook] at h
    by_cases hak : a = k
    · rw [if_pos hak, Option.some.injEq] at h
      subst hak
      subst h
      exact List.mem_cons_self _ _
    · rw [if_neg hak] at h
      exact List.mem_cons_of_mem _ (ih h)

/-- Everything in a dict after an assignment was already there or is the
assigned entry. -/
theorem ains_mem {α β : Type} [DecidableEq α] (l : List (α × β)) (k : α)
    (v : β) (p : α × β) (h : p ∈ ains l k v) : p ∈ l ∨ p = (k, v) := by
  rw [ains] at h
  split at h
  · rcases List.mem_map.mp h with ⟨q, hq, heq⟩
    by_cases hqk : q.1 = k
    · rw [if_pos hqk] at heq
      exact Or.inr heq.symm
    · rw [if_neg hqk] at heq
      exact Or.inl (heq ▸ hq)
  · rcases List.mem_append.mp h with hl | hr
    · exact Or.inl hl
    · exact Or.inr (List.mem_singleton.mp hr)

/-- Every to-id stored by `ExplicitAggregation`'s validation loop is a
member of `to_enum.ids`. -/
theorem agg_checkEntries_vals (fe te : Enumeration) :
    ∀ (dm acc d : List (EId × EId)),
    ExplicitAggregation.checkEntries fe te acc dm = .ok d →
    (∀ p ∈ acc, p.2 ∈ te.ids) → ∀ p ∈ d, p.2 ∈ te.ids := by
  intro dm
  induction dm with
  | nil =>
    intro acc d h hacc
    rw [ExplicitAggregation.checkEntries, Except.ok.injEq] at h
    subst h
    exact hacc
  | cons hd tl ih =>
    intro acc d h hacc
    obtain ⟨fid, tid⟩ := hd
    rw [ExplicitAggregation.checkEntries] at h
    split at h
    · cases h
    · split at h
      · cases h
      · rename_i h1 h2
        refine ih (ains acc fid tid) d h ?_
        intro p hp
        rcases ains_mem _ _ _ _ hp with hpacc | hpeq
        · exact hacc p hpacc
        · subst hpeq
          simp only [Bool.not_eq_true', Bool.not_eq_false] at h2
          exact List.elem_iff.mp h2

/-- Every to-id list stored by `ExplicitDisaggregation`'s validation loop
has all its members in `to_enum.ids`. -/
theorem disagg_checkEntries_vals (fe te : Enumeration) :
    ∀ (dm acc d : List (EId × List EId)),
    ExplicitDisaggregation.checkEntries fe te acc dm = .ok d →
    (∀ p ∈ acc, ∀ j ∈ p.2, j ∈ te.ids) →
    ∀ p ∈ d, ∀ j ∈ p.2, j ∈ te.ids := by
  intro dm
  induction dm with
  | nil =>
    intro acc d h hacc
    rw [ExplicitDisaggregation.checkEntries, Except.ok.injEq] at h
    subst h
    exact hacc
  | cons hd tl ih =>
    intro acc d h hacc
    obtain ⟨fid, tids⟩ := hd
    rw [ExplicitDisaggregation.checkEntries] at h
    split at h
    · cases h
    · split at h
      · cases h
      · rename_i h1 hfind
        refine ih (ains acc fid tids) d h ?_
        intro p hp j hj
        rcases ains_mem _ _ _ _ hp with hpacc | hpeq
        · exact hacc p hpacc j hj
        · subst hpeq
          have := List.find?_eq_none.mp hfind j hj
          simp only [Bool.not_eq_true', Bool.not_eq_false] at this
          exact List.elem_iff.mp this

/-- Every code recorded by the `FilterToSingleFuelMap` construction loop
is one of the kept ids. -/
theorem buildSingleFuel_sound (keep : String) :
    ∀ (l : List (String × String)) (nms ids names : List String)
      (mp : List ((String × String) × Option String)),
    buildSingleFuel keep l nms = .ok (ids, names, mp) →
    ∀ p ∈ mp, ∀ c, p.2 = some c → c ∈ ids := by
  intro l
  induction l with
  | nil =>
    intro nms ids names mp h
    rw [buildSingleFuel, Except.ok.injEq, Prod.mk.injEq, Prod.mk.injEq] at h
    obtain ⟨h1, h2, h3⟩ := h
    subst h3
    intro p hp
    cases hp
  | cons i t ih =>
    intro nms ids names mp h
    rw [buildSingleFuel.eq_def] at h
    simp only [] at h
    split at h
    · split at h
      · cases h
      · rename_i nm nt
        cases hrec : buildSingleFuel keep t nt with
        | error e =>
          rw [hrec] at h
          cases h
        | ok trip =>
          obtain ⟨ids2, names2, mp2⟩ := trip
          rw [hrec] at h
          simp only [Bind.bind, Except.bind, Except.ok.injEq,
            Prod.mk.injEq] at h
          obtain ⟨h1, h2, h3⟩ := h
          subst h1
          subst h3
          intro p hp c hc
          rcases List.mem_cons.mp hp with hpeq | hpm
          · subst hpeq
            rw [Option.some.injEq] at hc
            subst hc
            exact List.mem_cons_self _ _
          · exact List.mem_cons_of_mem _ (ih nt ids2 names2 mp2 hrec p hpm c hc)
    · cases hrec : buildSingleFuel keep t nms.tail with
      | error e =>
        rw [hrec] at h
        cases h
      | ok trip =>
        obtain ⟨ids2, names2, mp2⟩ := trip
        rw [hrec] at h
        simp only [Bind.bind, Except.bind, Except.ok.injEq,
          Prod.mk.injEq] at h
        obtain ⟨h1, h2, h3⟩ := h
        subst h1
        subst h3
        intro p hp c hc
        rcases List.mem_cons.mp hp with hpeq | hpm
        · subst hpeq
          cases hc
        · exact ih nms.tail ids2 names2 mp2 hrec p hpm c hc

/-- A successfully constructed single-fuel `UnitConversionMap` keeps its
source enumeration and gives the target enumeration the same ids. -/
theorem ucms_init_shape (fe : SingleFuelEndUseEnumeration)
    (fus tus : List String) (m : UnitConversionMapS)
    (h : UnitConversionMapS.init fe fus tus = .ok m) :
    m.from_enum = fe ∧ m.to_enum.ids = fe.ids := by
  cases fus with
  | nil =>
    rw [UnitConversionMapS.init] at h
    case x_2 =>
      exact fun a b hab hcd => List.noConfusion hab
    split at h
    · cases h
    · split at h
      · cases h
      · rename_i h2
        exact absurd rfl h2
  | cons fu fut =>
    cases fut with
    | cons f2 ft =>
      rw [UnitConversionMapS.init] at h
      case x_2 =>
        intro a b hab hcd
        injection hab with h1 h2
        exact List.noConfusion h2
      split at h
      · cases h
      · split at h
        · cases h
        · have h' : (Except.error Err.assertionError :
              Except Err UnitConversionMapS) = Except.ok m := h
          cases h'
    | nil =>
      cases tus with
      | nil =>
        rw [UnitConversionMapS.init] at h
        case x_2 =>
          exact fun a b hab hcd => List.noConfusion hcd
        split at h
        · cases h
        · rename_i hne
          exact absurd (by simp) hne
      | cons tu tut =>
        cases tut with
        | cons t2 tt =>
          rw [UnitConversionMapS.init] at h
          case x_2 =>
            intro a b hab hcd
            injection hcd with h1 h2
            exact List.noConfusion h2
          split at h
          · cases h
          · rename_i hne
            exact absurd (by simp) hne
        | nil =>
          rw [UnitConversionMapS.init] at h
          split at h
          · cases h
          · split at h
            · cases h
            · have h' : (if fu = fe._units then
                  Bind.bind (scaling_factor CONVERSION_FACTORS fu tu)
                    (fun s => (Except.ok ⟨fe,
                      ⟨(fe.name.replace fu tu).replace fu.toLower tu.toLower,
                        fe.ids, fe.names, fe._fuel, tu⟩, s⟩ :
                      Except Err UnitConversionMapS))
                else .error .assertionError) = .ok m := h
              split at h'
              · cases hs : scaling_factor CONVERSION_FACTORS fu tu with
                | error e =>
                  rw [hs] at h'
                  have h2 : (Except.error e :
                      Except Err UnitConversionMapS) = .ok m := h'
                  cases h2
                | ok s =>
                  rw [hs] at h'
                  have h2 : (Except.ok ⟨fe,
                      ⟨(fe.name.replace fu tu).replace fu.toLower tu.toLower,
                        fe.ids, fe.names, fe._fuel, tu⟩, s⟩ :
                      Except Err UnitConversionMapS) = .ok m := h'
                  rw [Except.ok.injEq] at h2
                  subst h2
                  exact ⟨rfl, rfl⟩
              · cases h'

/-- A successfully constructed multi-fuel `UnitConversionMap` keeps its
source enumeration and gives the target enumeration the same ids. -/
theorem ucmm_init_shape (fe : MultiFuelEndUseEnumeration)
    (fus tus : List String) (m : UnitConversionMapM)
    (h : UnitConversionMapM.init fe fus tus = .ok m) :
    m.from_enum = fe ∧ m.to_enum.ids = fe.ids := by
  rw [UnitConversionMapM.init] at h
  split at h
  · cases h
  · split at h
    · cases h
    · split at h
      · cases h
      · simp only [Bind.bind, Except.bind] at h
        split at h
        · cases h
        · rw [Except.ok.injEq] at h
          subst h
          exact ⟨rfl, rfl⟩

/-- A successfully constructed `FullAggregationMap` keeps its arguments
and holds a `to_id` drawn from `to_enum.ids`. -/
theorem fullAgg_init_shape (fe te : Enumeration) (ex : List EId)
    (m : FullAggregationMap)
    (h : FullAggregationMap.init fe te ex = .ok m) :
    m.from_enum = fe ∧ m.to_enum = te ∧ m.exclude_list = ex ∧
      m.to_id ∈ te.ids := by
  rw [FullAggregationMap.init] at h
  split at h
  · cases h
  · split at h
    · cases h
    · split at h
      · cases h
      · rename_i hids _ _
        rw [Except.ok.injEq] at h
        subst h
        refine ⟨rfl, rfl, rfl, ?_⟩
        rw [hids]
        exact List.mem_cons_self _ _

/-- A multi-fuel end-use enumeration used to instantiate theorems. -/
def sampleFuelEnum : FuelEnumeration :=
  ⟨"fuels", ["elec", "gas"], ["Electricity", "Natural Gas"], ["kWh", "MWh"]⟩

def sampleMF : MultiFuelEndUseEnumeration :=
  ⟨"enduses mf", ["heating", "cooking"], ["Heating", "Cooking"],
    sampleFuelEnum, ["elec", "gas"]⟩

/-- A single-fuel end-use enumeration used to instantiate theorems. -/
def sampleSF : SingleFuelEndUseEnumeration :=
  ⟨"enduses kWh", ["heating"], ["Heating"], "Electricity", "kWh"⟩

/-- The single-fuel kWh→GWh conversion map built from `sampleSF`. -/
def sampleUCS : UnitConversionMapS :=
  ⟨sampleSF,
    ⟨(sampleSF.name.replace "kWh" "GWh").replace "kWh".toLower "GWh".toLower,
      sampleSF.ids, sampleSF.names, sampleSF._fuel, "GWh"⟩,
    ⟨1, 1000000⟩⟩

/-- The multi-fuel kWh→GWh conversion map built from `sampleMF`. -/
def sampleUCM : UnitConversionMapM :=
  ⟨sampleMF,
    ⟨sampleMF.name, sampleMF._ids, sampleMF._names,
      ⟨sampleFuelEnum.name, sampleFuelEnum.ids, sampleFuelEnum.names,
        ["GWh", "MWh"]⟩,
      sampleMF._fuel_ids⟩,
    [(("heating", "elec"), ⟨1, 1000000⟩)]⟩

/-- The electricity filter built from `sampleMF`. -/
def sampleSFM : FilterToSingleFuelMap :=
  ⟨sampleMF,
    ⟨"enduses mf (Electricity)", ["heating"], ["Heating"], "Electricity",
      "kWh"⟩,
    [(("heating", "elec"), some "heating"), (("cooking", "gas"), Option.none)]⟩

/-- C2 counterexample: the claim "map(from_id) is either null or a member
of to_enum.ids" fails for `ExplicitDisaggregation`, whose inherited `map`
looks ids up in a `defaultdict(lambda: [])` of to-id lists: at a concrete
one-to-two disaggregation, `map` returns the list of both targets, which
is neither null nor any single member of `to_enum.ids`
(`[x, y]` here). -/
theorem claim2_disaggregation_counterexample :
    ExplicitDisaggregation.init sampleFrom sampleTo2
      [(.str "a", [.str "x", .str "y"])] Option.none =
      .ok (ExplicitDisaggregation.mk sampleFrom sampleTo2
        [(.str "a", [.str "x", .str "y"])] Option.none) ∧
    EId.str "a" ∈ sampleFrom.ids ∧
    sampleTo2.ids = [EId.str "x", EId.str "y"] ∧
    (ExplicitDisaggregation.mk sampleFrom sampleTo2
      [(.str "a", [.str "x", .str "y"])] Option.none).map (.str "a") =
      .list [.str "x", .str "y"] ∧
    (ExplicitDisaggregation.mk sampleFrom sampleTo2
      [(.str "a", [.str "x", .str "y"])] Option.none).map (.str "a") ≠
      MapRet.none ∧
    (ExplicitDisaggregation.mk sampleFrom sampleTo2
      [(.str "a", [.str "x", .str "y"])] Option.none).map (.str "a") ≠
      MapRet.id (.str "x") ∧
    (ExplicitDisaggregation.mk sampleFrom sampleTo2
      [(.str "a", [.str "x", .str "y"])] Option.none).map (.str "a") ≠
      MapRet.id (.str "y") := by
  decide

/-- C2 (amended): for TautologyMapping, FullAggregationMap,
FilterToSubsetMap, FilterToSingleFuelMap, ExplicitAggregation and
UnitConversionMap (both branches), `map(from_id)` is either null or a
member of `to_enum.ids` for every `from_id` in `from_enum.ids`; for
ExplicitDisaggregation, `map(from_id)` is a (possibly empty) list each of
whose elements is a member of `to_enum.ids` — never null and never a
bare id. -/
theorem claim2_map_codomain_invariant :
    (∀ (e : Enumeration) (i : EId), i ∈ e.ids →
      ((TautologyMapping.mk e).map i = .none ∨
        ∃ j ∈ (TautologyMapping.mk e).to_enum.ids,
          (TautologyMapping.mk e).map i = .id j)) ∧
    (∀ (fe te : Enumeration) (ex : List EId) (m : FullAggregationMap),
      FullAggregationMap.init fe te ex = .ok m →
      ∀ i ∈ m.from_enum.ids,
        (m.map i = .none ∨ ∃ j ∈ m.to_enum.ids, m.map i = .id j)) ∧
    (∀ (fe te : Enumeration) (m : FilterToSubsetMap),
      FilterToSubsetMap.init fe te = .ok m →
      ∀ i ∈ m.from_enum.ids,
        (m.map i = .none ∨ ∃ j ∈ m.to_enum.ids, m.map i = .id j)) ∧
    (∀ (fe : MultiFuelEndUseEnumeration) (keep : String)
        (m : FilterToSingleFuelMap),
      FilterToSingleFuelMap.init fe keep = .ok m →
      ∀ i ∈ m.from_enum.ids,
        (m.map i = .none ∨ ∃ c ∈ m.to_enum.ids, m.map i = .id (.str c))) ∧
    (∀ (fe te : Enumeration) (dm : List (EId × EId))
        (m : ExplicitAggregation),
      ExplicitAggregation.init fe te dm = .ok m →
      ∀ i ∈ m.from_enum.ids,
        (m.map i = .none ∨ ∃ j ∈ m.to_enum.ids, m.map i = .id j)) ∧
    (∀ (fe te : Enumeration) (dm : List (EId × List EId))
        (sdf : Option ScalingDatafile) (d : ExplicitDisaggregation),
      ExplicitDisaggregation.init fe te dm sdf = .ok d →
      ∀ i ∈ d.from_enum.ids,
        ∃ l, d.map i = .list l ∧ ∀ j ∈ l, j ∈ d.to_enum.ids) ∧
    (∀ (fe : SingleFuelEndUseEnumeration) (fus tus : List String)
        (m : UnitConversionMapS),
      UnitConversionMapS.init fe fus tus = .ok m →
      ∀ s ∈ m.from_enum.ids,
        (m.map s = .none ∨ ∃ c ∈ m.to_enum.ids, m.map s = .id (.str c))) ∧
    (∀ (fe : MultiFuelEndUseEnumeration) (fus tus : List String)
        (m : UnitConversionMapM),
      UnitConversionMapM.init fe fus tus = .ok m →
      ∀ i ∈ m.from_enum.ids,
        (m.map i = .none ∨
          ∃ p ∈ m.to_enum.ids, m.map i = .id (.pair p.1 p.2))) := by
  refine ⟨?_, ?_, ?_, ?_, ?_, ?_, ?_, ?_⟩
  · intro e i hi
    exact Or.inr ⟨i, hi, rfl⟩
  · intro fe te ex m hm i hi
    obtain ⟨hfrom, hto, hex, htid⟩ := fullAgg_init_shape fe te ex m hm
    by_cases hc : i ∈ ex
    · left
      simp [FullAggregationMap.map, hex, List.elem_iff, hc]
    · right
      refine ⟨m.to_id, by rw [hto]; exact htid, ?_⟩
      simp [FullAggregationMap.map, hex, List.elem_iff, hc]
  · intro fe te m hm i hi
    rw [FilterToSubsetMap.init] at hm
    split at hm
    · rw [Except.ok.injEq] at hm
      subst hm
      by_cases hc : i ∈ te.ids
      · right
        exact ⟨i, hc, by simp [FilterToSubsetMap.map, List.elem_iff, hc]⟩
      · left
        simp [FilterToSubsetMap.map, List.elem_iff, hc]
    · cases hm
  · intro fe keep m hm i hi
    rw [FilterToSingleFuelMap.init] at hm
    split at hm
    · cases hn : fe.fuel_enum.get_name keep with
      | none =>
        rw [hn] at hm
        have h2 : (Except.error Err.keyError :
            Except Err FilterToSingleFuelMap) = .ok m := hm
        cases h2
      | some fuelName =>
        rw [hn] at hm
        cases hu : fe.fuel_enum.get_units keep with
        | none =>
          rw [hu] at hm
          have h2 : (Except.error Err.keyError :
              Except Err FilterToSingleFuelMap) = .ok m := hm
          cases h2
        | some fuelUnits =>
          rw [hu] at hm
          cases hb : buildSingleFuel keep fe.ids fe._names with
          | error e =>
            rw [hb] at hm
            have h2 : (Except.error e :
                Except Err FilterToSingleFuelMap) = .ok m := hm
            cases h2
          | ok trip =>
            obtain ⟨ids, names, mp⟩ := trip
            rw [hb] at hm
            have h2 : (Except.ok ⟨fe,
                ⟨fe.name ++ " (" ++ fuelName ++ ")", ids, names, fuelName,
                  fuelUnits⟩, mp⟩ :
                Except Err FilterToSingleFuelMap) = .ok m := hm
            rw [Except.ok.injEq] at h2
            have hmap : m._map = mp :=
              (congrArg FilterToSingleFuelMap._map h2).symm
            have hto : m.to_enum.ids = ids :=
              (congrArg (fun x => x.to_enum.ids) h2).symm
            cases ha : alook mp i with
            | none =>
              left
              rw [FilterToSingleFuelMap.map, hmap, ha]
            | some oc =>
              cases oc with
              | none =>
                left
                rw [FilterToSingleFuelMap.map, hmap, ha]
              | some c =>
                right
                refine ⟨c, ?_, by rw [FilterToSingleFuelMap.map, hmap, ha]⟩
                rw [hto]
                exact buildSingleFuel_sound keep fe.ids fe._names ids names
                  mp hb (i, some c) (alook_mem mp i (some c) ha) c rfl
    · cases hm
  · intro fe te dm m hm i hi
    rw [ExplicitAggregation.init] at hm
    cases hch : ExplicitAggregation.checkEntries fe te [] dm with
    | error e =>
      rw [hch] at hm
      have h2 : (Except.error e : Except Err ExplicitAggregation) =
        .ok m := hm
      cases h2
    | ok d =>
      rw [hch] at hm
      have h2 : (Except.ok ⟨fe, te, d⟩ : Except Err ExplicitAggregation) =
        .ok m := hm
      rw [Except.ok.injEq] at h2
      have hdict : m._dictmap = d :=
        (congrArg ExplicitAggregation._dictmap h2).symm
      have hto : m.to_enum = te :=
        (congrArg ExplicitAggregation.to_enum h2).symm
      cases ha : alook d i with
      | none =>
        left
        rw [ExplicitAggregation.map, hdict, ha]
      | some t =>
        right
        refine ⟨t, ?_, by rw [ExplicitAggregation.map, hdict, ha]⟩
        rw [hto]
        exact agg_checkEntries_vals fe te dm [] d hch
          (by intro p hp; cases hp) (i, t) (alook_mem d i t ha)
  · intro fe te dm sdf d hd i hi
    rw [ExplicitDisaggregation.init] at hd
    cases hch : ExplicitDisaggregation.checkEntries fe te [] dm with
    | error e =>
      rw [hch] at hd
      have h2 : (Except.error e : Except Err ExplicitDisaggregation) =
        .ok d := hd
      cases h2
    | ok dd =>
      rw [hch] at hd
      cases sdf with
      | none =>
        have h2 : (Except.ok ⟨fe, te, dd, Option.none⟩ :
            Except Err ExplicitDisaggregation) = .ok d := hd
        rw [Except.ok.injEq] at h2
        have hdict : d._dictmap = dd :=
          (congrArg ExplicitDisaggregation._dictmap h2).symm
        have hto : d.to_enum = te :=
          (congrArg ExplicitDisaggregation.to_enum h2).symm
        refine ⟨(alook dd i).getD [], ?_, ?_⟩
        · rw [ExplicitDisaggregation.map, hdict]
        · intro j hj
          rw [hto]
          cases ha : alook dd i with
          | none =>
            rw [ha] at hj
            simp at hj
          | some tids =>
            rw [ha] at hj
            exact disagg_checkEntries_vals fe te dm [] dd hch
              (by intro p hp; cases hp) (i, tids)
              (alook_mem dd i tids ha) j hj
      | some sdfv =>
        have hd2 : (if (!(sdfv.containsEnum te)) = true then
            Except.error (Err.dsgrid (disaggScalingMsg te))
          else Except.ok ⟨fe, te, dd, some sdfv⟩) = .ok d := hd
        by_cases hcont : sdfv.containsEnum te = true
        · rw [hcont] at hd2
          simp only [Bool.not_true, Bool.false_eq_true, if_false] at hd2
          rw [Except.ok.injEq] at hd2
          have hdict : d._dictmap = dd :=
            (congrArg ExplicitDisaggregation._dictmap hd2).symm
          have hto : d.to_enum = te :=
            (congrArg ExplicitDisaggregation.to_enum hd2).symm
          refine ⟨(alook dd i).getD [], ?_, ?_⟩
          · rw [ExplicitDisaggregation.map, hdict]
          · intro j hj
            rw [hto]
            cases ha : alook dd i with
            | none =>
              rw [ha] at hj
              simp at hj
            | some tids =>
              rw [ha] at hj
              exact disagg_checkEntries_vals fe te dm [] dd hch
                (by intro p hp; cases hp) (i, tids)
                (alook_mem dd i tids ha) j hj
        · have hfalse : sdfv.containsEnum te = false := by
            revert hcont
            cases sdfv.containsEnum te <;> simp
          rw [hfalse] at hd2
          simp at hd2
  · intro fe fus tus m hm s hs
    obtain ⟨hfrom, hids⟩ := ucms_init_shape fe fus tus m hm
    right
    refine ⟨s, ?_, rfl⟩
    rw [hids, ← hfrom]
    exact hs
  · intro fe fus tus m hm i hi
    obtain ⟨hfrom, hids⟩ := ucmm_init_shape fe fus tus m hm
    right
    refine ⟨i, ?_, rfl⟩
    rw [hids, ← hfrom]
    exact hi

/-- Witness for C2: each variant's codomain invariant instantiated at a
concrete mapping and id. -/
theorem claim2_map_codomain_invariant_witness :
    ((TautologyMapping.mk sampleFrom).map (.str "a") = .none ∨
      ∃ j ∈ (TautologyMapping.mk sampleFrom).to_enum.ids,
        (TautologyMapping.mk sampleFrom).map (.str "a") = .id j) ∧
    ((FullAggregationMap.mk sampleFrom sampleTo1 (.str "t")
        [.str "b"]).map (.str "a") = .none ∨
      ∃ j ∈ (FullAggregationMap.mk sampleFrom sampleTo1 (.str "t")
        [.str "b"]).to_enum.ids,
        (FullAggregationMap.mk sampleFrom sampleTo1 (.str "t")
          [.str "b"]).map (.str "a") = .id j) ∧
    ((FilterToSubsetMap.mk sampleFrom sampleSub).map (.str "c") = .none ∨
      ∃ j ∈ (FilterToSubsetMap.mk sampleFrom sampleSub).to_enum.ids,
        (FilterToSubsetMap.mk sampleFrom sampleSub).map (.str "c") = .id j) ∧
    (sampleSFM.map ("heating", "elec") = .none ∨
      ∃ c ∈ sampleSFM.to_enum.ids,
        sampleSFM.map ("heating", "elec") = .id (.str c)) ∧
    ((ExplicitAggregation.mk sampleFrom sampleTo2
        [(.str "a", .str "x")]).map (.str "a") = .none ∨
      ∃ j ∈ (ExplicitAggregation.mk sampleFrom sampleTo2
        [(.str "a", .str "x")]).to_enum.ids,
        (ExplicitAggregation.mk sampleFrom sampleTo2
          [(.str "a", .str "x")]).map (.str "a") = .id j) ∧
    (∃ l, (ExplicitDisaggregation.mk sampleFrom sampleTo2
        [(.str "a", [.str "x", .str "y"])] Option.none).map (.str "a") =
          .list l ∧
      ∀ j ∈ l, j ∈ (ExplicitDisaggregation.mk sampleFrom sampleTo2
        [(.str "a", [.str "x", .str "y"])] Option.none).to_enum.ids) ∧
    (sampleUCS.map "heating" = .none ∨
      ∃ c ∈ sampleUCS.to_enum.ids, sampleUCS.map "heating" = .id (.str c)) ∧
    (sampleUCM.map ("heating", "elec") = .none ∨
      ∃ p ∈ sampleUCM.to_enum.ids,
        sampleUCM.map ("heating", "elec") = .id (.pair p.1 p.2)) :=
  ⟨claim2_map_codomain_invariant.1 sampleFrom (.str "a") (by decide),
   claim2_map_codomain_invariant.2.1 sampleFrom sampleTo1 [.str "b"]
     (FullAggregationMap.mk sampleFrom sampleTo1 (.str "t") [.str "b"])
     (by decide) (.str "a") (by decide),
   claim2_map_codomain_invariant.2.2.1 sampleFrom sampleSub
     (FilterToSubsetMap.mk sampleFrom sampleSub) (by decide)
     (.str "c") (by decide),
   claim2_map_codomain_invariant.2.2.2.1 sampleMF "elec" sampleSFM
     (by decide) ("heating", "elec") (by decide),
   claim2_map_codomain_invariant.2.2.2.2.1 sampleFrom sampleTo2
     [(.str "a", .str "x")]
     (ExplicitAggregation.mk sampleFrom sampleTo2 [(.str "a", .str "x")])
     (by decide) (.str "a") (by decide),
   claim2_map_codomain_invariant.2.2.2.2.2.1 sampleFrom sampleTo2
     [(.str "a", [.str "x", .str "y"])] Option.none
     (ExplicitDisaggregation.mk sampleFrom sampleTo2
       [(.str "a", [.str "x", .str "y"])] Option.none)
     (by decide) (.str "a") (by decide),
   claim2_map_codomain_invariant.2.2.2.2.2.2.1 sampleSF ["kWh"] ["GWh"]
     sampleUCS rfl "heating" (by decide),
   claim2_map_codomain_invariant.2.2.2.2.2.2.2 sampleMF ["kWh"] ["GWh"]
     sampleUCM (by decide) ("heating", "elec") (by decide)⟩

/-! ## Solver analysis: the ratio graph and the known-pairs invariants -/

/-- Two units are adjacent when the ratio table holds an entry between
them, in either direction (every ratio is invertible). -/
def adjacent (factors : List ((String × String) × PyF)) (u v : String) :
    Prop :=
  (∃ q, ((u, v), q) ∈ factors) ∨ (∃ q, ((v, u), q) ∈ factors)

/-- A conversion path exists in the implicit undirected ratio graph. -/
def Reach (factors : List ((String × String) × PyF)) :
    String → String → Prop :=
  Relation.ReflTransGen (adjacent factors)

/-- The invariant of every entry of the solver's known-pairs table when
searching for conversions into `t`: the key's second component is `t`,
its first component is a unit of the table, and a path to `t` exists. -/
def solKey (t : String) (factors : List ((String × String) × PyF))
    (p : (String × String) × PyF) : Prop :=
  p.1.2 = t ∧ p.1.1 ∈ unitsOf factors ∧ Reach factors p.1.1 t

/-- Both units of a table entry are in `unitsOf`. -/
theorem mem_unitsOf (factors : List ((String × String) × PyF))
    (uf : (String × String) × PyF) (h : uf ∈ factors) :
    uf.1.1 ∈ unitsOf factors ∧ uf.1.2 ∈ unitsOf factors := by
  have hbase : uf.1.1 ∈ factors.foldr
        (fun uf acc => uf.1.1 :: uf.1.2 :: acc) [] ∧
      uf.1.2 ∈ factors.foldr (fun uf acc => uf.1.1 :: uf.1.2 :: acc) [] := by
    induction factors with
    | nil => cases h
    | cons g t ih =>
      rw [List.foldr_cons]
      rcases List.mem_cons.mp h with heq | hmem
      · subst heq
        exact ⟨List.mem_cons_self _ _,
          List.mem_cons_of_mem _ (List.mem_cons_self _ _)⟩
      · have hih := ih hmem
        exact ⟨List.mem_cons_of_mem _ (List.mem_cons_of_mem _ hih.1),
          List.mem_cons_of_mem _ (List.mem_cons_of_mem _ hih.2)⟩
  exact ⟨List.mem_dedup.mpr hbase.1, List.mem_dedup.mpr hbase.2⟩

/-- Adjacent units are both units of the table. -/
theorem adjacent_mem_units (factors : List ((String × String) × PyF))
    (u v : String) (h : adjacent factors u v) :
    u ∈ unitsOf factors ∧ v ∈ unitsOf factors := by
  rcases h with ⟨q, hq⟩ | ⟨q, hq⟩
  · have := mem_unitsOf factors ((u, v), q) hq
    exact ⟨this.1, this.2⟩
  · have := mem_unitsOf factors ((v, u), q) hq
    exact ⟨this.2, this.1⟩

/-- The endpoint of a nontrivial path is a unit of the table. -/
theorem reach_end_mem (factors : List ((String × String) × PyF))
    (a b : String) (h : Reach factors a b) :
    a = b ∨ b ∈ unitsOf factors := by
  induction h with
  | refl => exact Or.inl rfl
  | tail hr hadj ih => exact Or.inr (adjacent_mem_units factors _ _ hadj).2

/-- A failed dict lookup means the key is not among the stored keys. -/
theorem alook_eq_none_iff {α β : Type} [DecidableEq α] (l : List (α × β))
    (k : α) :
    alook l k = Option.none ↔ k ∉ l.map (fun p => p.1) := by
  induction l with
  | nil => simp [alook]
  | cons p t ih =>
    obtain ⟨a, b⟩ := p
    rw [alook]
    by_cases hak : a = k
    · simp [hak]
    · simp [hak, ih, Ne.symm hak]

/-- Dict assignment keeps the stored keys free of duplicates. -/
theorem ains_keys_nodup {α β : Type} [DecidableEq α] (l : List (α × β))
    (k : α) (v : β) (h : (l.map (fun p => p.1)).Nodup) :
    ((ains l k v).map (fun p => p.1)).Nodup := by
  rw [ains]
  split
  · have heq : (l.map (fun p => if p.1 = k then (k, v) else p)).map
        (fun p => p.1) = l.map (fun p => p.1) := by
      rw [List.map_map]
      apply List.map_congr_left
      intro p hp
      by_cases hpk : p.1 = k
      · simp [hpk]
      · simp [hpk]
    rw [heq]
    exact h
  · rename_i hnone
    rw [List.map_append]
    apply List.nodup_append.mpr
    refine ⟨h, List.nodup_singleton _, ?_⟩
    intro x hx hx2
    rw [List.map_singleton, List.mem_singleton] at hx2
    subst hx2
    have halook : alook l x = Option.none :=
      Option.not_isSome_iff_eq_none.mp (by simpa using hnone)
    exact (alook_eq_none_iff l x).mp halook hx

/-- One `_get_all_factors` loop step only records keys that end at
`to_unit`, start at a unit of the table, and correspond to a table
edge. -/
theorem gafStep_mem (t : String) (F : List ((String × String) × PyF))
    (acc : List ((String × String) × PyF)) (uf : (String × String) × PyF)
    (huf : uf ∈ F)
    (hacc : ∀ q ∈ acc, q.1.2 = t ∧ adjacent F q.1.1 t ∧
      q.1.1 ∈ unitsOf F) :
    ∀ p ∈ gafStep t acc uf,
      p.1.2 = t ∧ adjacent F p.1.1 t ∧ p.1.1 ∈ unitsOf F := by
  intro p hp
  simp only [gafStep] at hp
  have hmem1 : ∀ q ∈ (if uf.1.2 = t then ains acc uf.1 uf.2 else acc),
      q.1.2 = t ∧ adjacent F q.1.1 t ∧ q.1.1 ∈ unitsOf F := by
    intro q hq
    by_cases h1 : uf.1.2 = t
    · rw [if_pos h1] at hq
      rcases ains_mem _ _ _ _ hq with hold | hnew
      · exact hacc q hold
      · subst hnew
        refine ⟨h1, Or.inl ⟨uf.2, ?_⟩, (mem_unitsOf F uf huf).1⟩
        rw [← h1]
        exact huf
    · rw [if_neg h1] at hq
      exact hacc q hq
  by_cases h2 : uf.1.1 = t
  · rw [if_pos h2] at hp
    rcases ains_mem _ _ _ _ hp with hold | hnew
    · exact hmem1 p hold
    · subst hnew
      refine ⟨h2, Or.inr ⟨uf.2, ?_⟩, (mem_unitsOf F uf huf).2⟩
      rw [← h2]
      exact huf
  · rw [if_neg h2] at hp
    exact hmem1 p hp

/-- The `_get_all_factors` fold only records keys ending at `to_unit`
that are table edges. -/
theorem gaf_fold_mem (t : String) (F : List ((String × String) × PyF)) :
    ∀ (l acc : List ((String × String) × PyF)),
    (∀ uf ∈ l, uf ∈ F) →
    (∀ q ∈ acc, q.1.2 = t ∧ adjacent F q.1.1 t ∧ q.1.1 ∈ unitsOf F) →
    ∀ p ∈ List.foldl (gafStep t) acc l,
      p.1.2 = t ∧ adjacent F p.1.1 t ∧ p.1.1 ∈ unitsOf F := by
  intro l
  induction l with
  | nil =>
    intro acc _ hacc
    simpa using hacc
  | cons uf rest ih =>
    intro acc hl hacc
    rw [List.foldl_cons]
    exact ih _ (fun x hx => hl x (List.mem_cons_of_mem _ hx))
      (gafStep_mem t F acc uf (hl uf (List.mem_cons_self _ _)) hacc)

/-- Every entry of `_get_all_factors to_unit` keys an edge of the table
into `to_unit`. -/
theorem getAllFactors_mem (t : String)
    (F : List ((String × String) × PyF)) (m : Option PyF)
    (p : (String × String) × PyF) (hp : p ∈ getAllFactors t F m) :
    p.1.2 = t ∧ adjacent F p.1.1 t ∧ p.1.1 ∈ unitsOf F := by
  cases m with
  | none =>
    rw [getAllFactors] at hp
    exact gaf_fold_mem t F F [] (fun uf h => h)
      (by intro q hq; cases hq) p hp
  | some mm =>
    rw [getAllFactors] at hp
    rcases List.mem_map.mp hp with ⟨q, hq, hqe⟩
    have hQ := gaf_fold_mem t F F [] (fun uf h => h)
      (by intro q hq; cases hq) q hq
    subst hqe
    exact hQ

/-- One `_get_all_factors` loop step keeps the keys duplicate-free. -/
theorem gafStep_keys_nodup (t : String)
    (acc : List ((String × String) × PyF)) (uf : (String × String) × PyF)
    (h : (acc.map (fun p => p.1)).Nodup) :
    ((gafStep t acc uf).map (fun p => p.1)).Nodup := by
  simp only [gafStep]
  by_cases h2 : uf.1.1 = t
  · rw [if_pos h2]
    apply ains_keys_nodup
    by_cases h1 : uf.1.2 = t
    · rw [if_pos h1]
      exact ains_keys_nodup _ _ _ h
    · rw [if_neg h1]
      exact h
  · rw [if_neg h2]
    by_cases h1 : uf.1.2 = t
    · rw [if_pos h1]
      exact ains_keys_nodup _ _ _ h
    · rw [if_neg h1]
      exact h

/-- The `_get_all_factors` fold keeps the keys duplicate-free. -/
theorem gaf_fold_nodup (t : String) :
    ∀ (l acc : List ((String × String) × PyF)),
    (acc.map (fun p => p.1)).Nodup →
    ((List.foldl (gafStep t) acc l).map (fun p => p.1)).Nodup := by
  intro l
  induction l with
  | nil =>
    intro acc hacc
    simpa using hacc
  | cons uf rest ih =>
    intro acc hacc
    rw [List.foldl_cons]
    exact ih _ (gafStep_keys_nodup t acc uf hacc)

/-- `_get_all_factors` returns a dict: its keys are duplicate-free. -/
theorem getAllFactors_keys_nodup (t : String)
    (F : List ((String × String) × PyF)) (m : Option PyF) :
    ((getAllFactors t F m).map (fun p => p.1)).Nodup := by
  cases m with
  | none =>
    rw [getAllFactors]
    exact gaf_fold_nodup t F [] (by simp)
  | some mm =>
    rw [getAllFactors]
    have heq : ((List.foldl (gafStep t) [] F).map
        (fun p => (p.1, p.2.mul mm))).map (fun p => p.1) =
        (List.foldl (gafStep t) [] F).map (fun p => p.1) := by
      rw [List.map_map]
      apply List.map_congr_left
      intro p hp
      rfl
    rw [heq]
    exact gaf_fold_nodup t F [] (by simp)

/-- The inner candidate loop preserves the known-pairs invariants: every
entry keys a reachable unit, keys stay duplicate-free, the table never
shrinks, and the `something_added` flag certifies strict growth over the
baseline `n`. -/
theorem epInner_fold_inv (t : String) (F : List ((String × String) × PyF))
    (n : Nat) :
    ∀ (cand : List ((String × String) × PyF)),
    (∀ bf ∈ cand, bf.1.1 ∈ unitsOf F ∧ Reach F bf.1.1 t) →
    ∀ (acc : List ((String × String) × PyF) × Bool),
    (∀ p ∈ acc.1, solKey t F p) →
    (acc.1.map (fun p => p.1)).Nodup →
    n ≤ acc.1.length →
    (acc.2 = true → n < acc.1.length) →
    (∀ p ∈ (cand.foldl (epInner t) acc).1, solKey t F p) ∧
    ((cand.foldl (epInner t) acc).1.map (fun p => p.1)).Nodup ∧
    n ≤ (cand.foldl (epInner t) acc).1.length ∧
    ((cand.foldl (epInner t) acc).2 = true →
      n < (cand.foldl (epInner t) acc).1.length) := by
  intro cand
  induction cand with
  | nil =>
    intro _ acc h1 h2 h3 h4
    rw [List.foldl_nil]
    exact ⟨h1, h2, h3, h4⟩
  | cons bf rest ih =>
    intro hcand acc h1 h2 h3 h4
    rw [List.foldl_cons]
    cases hlk : (alook acc.1 (bf.1.1, t)).isSome with
    | true =>
      have he : epInner t acc bf = acc := by
        simp [epInner, hlk]
      rw [he]
      exact ih (fun x hx => hcand x (List.mem_cons_of_mem _ hx))
        acc h1 h2 h3 h4
    | false =>
      have he : epInner t acc bf = (acc.1 ++ [((bf.1.1, t), bf.2)], true) := by
        simp [epInner, hlk]
      rw [he]
      apply ih (fun x hx => hcand x (List.mem_cons_of_mem _ hx))
      · intro p hp
        rcases List.mem_append.mp hp with hold | hnew
        · exact h1 p hold
        · rw [List.mem_singleton] at hnew
          subst hnew
          exact ⟨rfl, (hcand bf (List.mem_cons_self _ _)).1,
            (hcand bf (List.mem_cons_self _ _)).2⟩
      · rw [List.map_append]
        apply List.nodup_append.mpr
        refine ⟨h2, List.nodup_singleton _, ?_⟩
        intro x hx hx2
        rw [List.map_singleton, List.mem_singleton] at hx2
        rw [hx2] at hx
        have halook : alook acc.1 (bf.1.1, t) = Option.none :=
          Option.not_isSome_iff_eq_none.mp (by simp [hlk])
        exact (alook_eq_none_iff acc.1 (bf.1.1, t)).mp halook hx
      · rw [List.length_append]
        omega
      · intro _
        rw [List.length_append]
        simp only [List.length_singleton]
        omega

/-- The outer snapshot loop preserves the known-pairs invariants. -/
theorem epOuter_fold_inv (t : String) (F : List ((String × String) × PyF))
    (n : Nat) :
    ∀ (exp : List ((String × String) × PyF)),
    (∀ af ∈ exp, Reach F af.1.1 t) →
    ∀ (acc : List ((String × String) × PyF) × Bool),
    (∀ p ∈ acc.1, solKey t F p) →
    (acc.1.map (fun p => p.1)).Nodup →
    n ≤ acc.1.length →
    (acc.2 = true → n < acc.1.length) →
    (∀ p ∈ (exp.foldl (epOuter t F) acc).1, solKey t F p) ∧
    ((exp.foldl (epOuter t F) acc).1.map (fun p => p.1)).Nodup ∧
    n ≤ (exp.foldl (epOuter t F) acc).1.length ∧
    ((exp.foldl (epOuter t F) acc).2 = true →
      n < (exp.foldl (epOuter t F) acc).1.length) := by
  intro exp
  induction exp with
  | nil =>
    intro _ acc h1 h2 h3 h4
    rw [List.foldl_nil]
    exact ⟨h1, h2, h3, h4⟩
  | cons af rest ih =>
    intro hexp acc h1 h2 h3 h4
    rw [List.foldl_cons]
    have hcand : ∀ bf ∈ getAllFactors af.1.1 F (some af.2),
        bf.1.1 ∈ unitsOf F ∧ Reach F bf.1.1 t := by
      intro bf hbf
      obtain ⟨hb1, hb2, hb3⟩ := getAllFactors_mem af.1.1 F (some af.2) bf hbf
      exact ⟨hb3, Relation.ReflTransGen.head hb2
        (hexp af (List.mem_cons_self _ _))⟩
    obtain ⟨g1, g2, g3, g4⟩ :=
      epInner_fold_inv t F n (getAllFactors af.1.1 F (some af.2)) hcand
        acc h1 h2 h3 h4
    exact ih (fun x hx => hexp x (List.mem_cons_of_mem _ hx))
      (epOuter t F acc af) g1 g2 g3 g4

/-- One full expansion pass preserves the invariants; when the
`something_added` flag is raised the table strictly grew. -/
theorem expandPass_inv (t : String) (F : List ((String × String) × PyF))
    (these : List ((String × String) × PyF))
    (hQ : ∀ p ∈ these, solKey t F p)
    (hND : (these.map (fun p => p.1)).Nodup) :
    (∀ p ∈ (expandPass t F these).1, solKey t F p) ∧
    ((expandPass t F these).1.map (fun p => p.1)).Nodup ∧
    these.length ≤ (expandPass t F these).1.length ∧
    ((expandPass t F these).2 = true →
      these.length < (expandPass t F these).1.length) := by
  rw [expandPass]
  exact epOuter_fold_inv t F these.length these
    (fun af haf => (hQ af haf).2.2) (these, false) hQ hND le_rfl
    (fun h => absurd h (by simp))

/-- Pigeonhole: a duplicate-free known-pairs table for target `t` has at
most one entry per unit of the ratio table. -/
theorem table_len_le (t : String) (F : List ((String × String) × PyF))
    (l : List ((String × String) × PyF))
    (hQ : ∀ p ∈ l, solKey t F p)
    (hND : (l.map (fun p => p.1)).Nodup) :
    l.length ≤ (unitsOf F).length := by
  have hkeysON : ∀ k ∈ l.map (fun p => p.1), k.2 = t := by
    intro k hk
    rcases List.mem_map.mp hk with ⟨p, hp, rfl⟩
    exact (hQ p hp).1
  have hfirstsND : ((l.map (fun p => p.1)).map (fun k => k.1)).Nodup := by
    apply hND.map_on
    intro x hx y hy hxy
    exact Prod.ext hxy (by rw [hkeysON x hx, hkeysON y hy])
  have hsub : ((l.map (fun p => p.1)).map (fun k => k.1)) ⊆ unitsOf F := by
    intro x hx
    rcases List.mem_map.mp hx with ⟨k, hk, rfl⟩
    rcases List.mem_map.mp hk with ⟨p, hp, rfl⟩
    exact (hQ p hp).2.1
  have hlen := (List.subperm_of_subset hfirstsND hsub).length_le
  simpa using hlen

/-- The fuelled `while` loop returns (no fuel exhaustion) whenever the
fuel exceeds the remaining room in the finite known-pairs table, and any
returned factor certifies a conversion path. -/
theorem sfLoop_main (F : List ((String × String) × PyF)) (fu tu : String) :
    ∀ (fuel : Nat) (these : List ((String × String) × PyF)),
    (∀ p ∈ these, solKey tu F p) →
    (these.map (fun p => p.1)).Nodup →
    (unitsOf F).length < fuel + these.length →
    ∃ r, sfLoop F (fu, tu) tu fuel these = some r ∧
      ((∃ v, r = .ok v ∧ Reach F fu tu) ∨
        r = .error (.notImplemented (noConvMsg fu tu))) := by
  intro fuel
  induction fuel with
  | zero =>
    intro these hQ hND hbound
    exfalso
    have := table_len_le tu F these hQ hND
    omega
  | succ n ih =>
    intro these hQ hND hbound
    obtain ⟨hQ2, hND2, hlen2, hgrow⟩ := expandPass_inv tu F these hQ hND
    cases ha : alook (expandPass tu F these).1 (fu, tu) with
    | some v =>
      refine ⟨.ok v, ?_, Or.inl ⟨v, rfl, ?_⟩⟩
      · simp only [sfLoop, ha]
      · exact (hQ2 ((fu, tu), v) (alook_mem _ _ _ ha)).2.2
    | none =>
      cases hflag : (expandPass tu F these).2 with
      | true =>
        obtain ⟨r, hr, hcase⟩ := ih (expandPass tu F these).1 hQ2 hND2
          (by have := hgrow hflag; omega)
        refine ⟨r, ?_, hcase⟩
        simp only [sfLoop, ha, hflag]
        simpa using hr
      | false =>
        refine ⟨.error (.notImplemented (noConvMsg fu tu)), ?_, Or.inr rfl⟩
        simp only [sfLoop, ha, hflag]
        simp

/-- `scaling_factor` always reaches an answer: either a factor (and then
a path exists) or the no-conversion error naming both units. -/
theorem scaling_factorO_cases (F : List ((String × String) × PyF))
    (fu tu : String) :
    ∃ r, scaling_factorO F fu tu = some r ∧
      ((∃ v, r = .ok v ∧ Reach F fu tu) ∨
        r = .error (.notImplemented (noConvMsg fu tu))) := by
  have hQ0 : ∀ p ∈ getAllFactors tu F Option.none, solKey tu F p := by
    intro p hp
    obtain ⟨h1, h2, h3⟩ := getAllFactors_mem tu F Option.none p hp
    exact ⟨h1, h3, Relation.ReflTransGen.single h2⟩
  cases ha : alook (getAllFactors tu F Option.none) (fu, tu) with
  | some v =>
    refine ⟨.ok v, ?_, Or.inl ⟨v, rfl, ?_⟩⟩
    · simp only [scaling_factorO, ha]
    · exact (hQ0 ((fu, tu), v) (alook_mem _ _ _ ha)).2.2
  | none =>
    obtain ⟨r, hr, hcase⟩ := sfLoop_main F fu tu ((unitsOf F).length + 1)
      (getAllFactors tu F Option.none) hQ0
      (getAllFactors_keys_nodup tu F Option.none) (by omega)
    refine ⟨r, ?_, hcase⟩
    simp only [scaling_factorO, ha]
    exact hr

/-- C5: `scaling_factor` terminates for every pair of unit arguments and
every finite seed ratio table: the known (pair, factor) table over the
finitely many units grows strictly on every pass that raises
`something_added`, so the fuelled embedding of the `while` loop reaches
its answer within the fuel bound — the fuel-exhaustion sentinel is
unreachable. -/
theorem claim5_solver_termination (factors : List ((String × String) × PyF))
    (fu tu : String) :
    (scaling_factorO factors fu tu).isSome ∧
    scaling_factor factors fu tu ≠ .error .fuelOut := by
  obtain ⟨r, hr, hcase⟩ := scaling_factorO_cases factors fu tu
  constructor
  · rw [hr]
    rfl
  · rw [scaling_factor, hr, Option.getD_some]
    rcases hcase with ⟨v, hv, _⟩ | he
    · rw [hv]
      intro hcontra
      cases hcontra
    · rw [he]
      intro hcontra
      rw [Except.error.injEq] at hcontra
      cases hcontra

/-- C4: when no path joins the two units in the undirected ratio graph,
`scaling_factor` raises the `DSGridNotImplemented` error whose message
names both units, rather than returning a value. -/
theorem claim4_unreachable_conversion
    (factors : List ((String × String) × PyF)) (fu tu : String)
    (h : ¬ Reach factors fu tu) :
    scaling_factor factors fu tu =
      .error (.notImplemented (noConvMsg fu tu)) := by
  obtain ⟨r, hr, hcase⟩ := scaling_factorO_cases factors fu tu
  rcases hcase with ⟨v, hv, hreach⟩ | he
  · exact absurd hreach h
  · rw [scaling_factor, hr, Option.getD_some, he]

/-- Witness for C4: `kWh` and `Joules` are unconnected in the seed table
(Joules is not even one of its units), and the call raises the
no-conversion error naming both. -/
theorem claim4_unreachable_conversion_witness :
    scaling_factor CONVERSION_FACTORS "kWh" "Joules" =
      .error (.notImplemented (noConvMsg "kWh" "Joules")) :=
  claim4_unreachable_conversion CONVERSION_FACTORS "kWh" "Joules"
    (fun hre => by
      rcases reach_end_mem CONVERSION_FACTORS "kWh" "Joules" hre with
        heq | hmem
      · exact absurd heq (by decide)
      · exact absurd hmem (by decide))
